import Mathlib

/-!
Verification of the p2p-signaling room/session registry.

Shallow embedding of the signaling server (the complete variant with
token-authorized join, TTL, maxPeers, usage limits, a per-socket token
bucket and a per-IP connection cap).  Socket ids, IP addresses, room
codes and room tokens are modelled as naturals; JS `Map`s are modelled
as association lists with JS `Map.set` / `Map.delete` semantics; JS
`Set`s are `Finset ℕ`; the fractional token count of a rate bucket is a
rational (JS numbers; the source arithmetic is exact on the values the
claims exercise).  The transport layer (socket.io) is modelled by an
explicit per-room broadcast-channel membership table, the set of
connected sockets, and a list of delivered events: `io.to(X).emit`
becomes an `Event` value carrying the recipient set resolved at emit
time, and socket.io's removal of a disconnecting socket from all of its
channels before the `disconnect` handler runs is performed at the start
of the modelled disconnect handler.
-/

namespace P2PSignaling

/-- Association-list lookup (first match), modelling JS `Map.get`. -/
def lookupA {α : Type} (k : ℕ) : List (ℕ × α) → Option α
  | [] => none
  | (k', v) :: t => if k' = k then some v else lookupA k t

/-- JS `Map.set`: replace the binding in place if the key is present,
otherwise append a new binding at the end (insertion order). -/
def setA {α : Type} (k : ℕ) (v : α) : List (ℕ × α) → List (ℕ × α)
  | [] => [(k, v)]
  | (k', v') :: t => if k' = k then (k, v) :: t else (k', v') :: setA k v t

/-- JS `Map.delete`: remove the binding for a key (keys of a JS `Map`
are unique, so removing every binding for the key is the same map). -/
def eraseA {α : Type} (k : ℕ) : List (ℕ × α) → List (ℕ × α)
  | [] => []
  | (k', v) :: t => if k' = k then eraseA k t else (k', v) :: eraseA k t

/-- Keys of an association list are pairwise distinct (true of every
state reachable from the initial empty maps). -/
def keysND {α : Type} (l : List (ℕ × α)) : Prop := (l.map Prod.fst).Nodup

/-- A per-socket rate bucket: `{ tokens, lastRefill }` (tokens is a JS
number holding fractional token counts; lastRefill is `Date.now()` in
milliseconds). -/
structure Bucket where
  tokens : ℚ
  lastRefill : ℕ
deriving DecidableEq

/-- Room metadata, from the `create-room` handler:
`{ hostSocketId, token, peers, createdAt, ttlMs, maxPeers, usageLeft }`
(the derived `roomRoomName` is the room code itself in this model,
since `room-CODE` is in bijection with `CODE`). -/
structure RoomMeta where
  hostSocketId : ℕ
  token : ℕ
  peers : Finset ℕ
  createdAt : ℕ
  ttlMs : ℕ
  maxPeers : ℕ
  usageLeft : Option ℕ
deriving DecidableEq

/-- The server's mutable registries: `rooms`, the socket.io broadcast
channel membership per room code, `ipConnections`, `rateBuckets`, and
the transport's set of currently connected sockets. -/
structure ServerState where
  rooms : List (ℕ × RoomMeta)
  channels : List (ℕ × Finset ℕ)
  ipConns : List (ℕ × Finset ℕ)
  rateBuckets : List (ℕ × Bucket)
  connected : Finset ℕ
deriving DecidableEq

/-- The state at server start: every registry empty. -/
def initState : ServerState := ⟨[], [], [], [], ∅⟩

/-- Environment configuration: `MAX_CONNECTIONS_PER_IP` and
`MSGS_PER_SECOND`. -/
structure Config where
  maxConnPerIp : ℕ
  msgsPerSecond : ℕ
deriving DecidableEq

/-- Error codes surfaced to clients through acks. -/
inductive ErrCode
  | rate_limit
  | missing_params
  | room_not_found
  | invalid_token
  | max_peers_reached
deriving DecidableEq

/-- Result of an acked request: `{ok:true,...}` or `{ok:false, error}`. -/
inductive Res
  | ok
  | err (e : ErrCode)
deriving DecidableEq

/-- Reason carried by a `room-expired` broadcast. -/
inductive ExpReason
  | ttl
  | usage_exhausted
deriving DecidableEq

/-- Messages delivered through the transport, with the recipient set
resolved at emit time. -/
inductive Event
  | peerJoined (target peerId code : ℕ)
  | peerLeft (target peerId code : ℕ)
  | hostLeft (recipients : Finset ℕ) (code : ℕ)
  | roomExpired (recipients : Finset ℕ) (code : ℕ) (reason : ExpReason)
  | ipLimit (sid : ℕ)
deriving DecidableEq

/-- Members of the broadcast channel of a room code (empty if the
channel does not exist). -/
def channelOf (s : ServerState) (code : ℕ) : Finset ℕ :=
  (lookupA code s.channels).getD ∅

/-- Connection set recorded for an IP (`getIpCount` reads its size). -/
def ipConnsOf (s : ServerState) (ip : ℕ) : Finset ℕ :=
  (lookupA ip s.ipConns).getD ∅

/-- The refill step of `consumeToken`: if time elapsed since the last
refill, add `elapsed_seconds * MSGS_PER_SECOND` tokens, capped at
`MSGS_PER_SECOND`, and stamp `lastRefill = now`. -/
def refillBucket (cfg : Config) (now : ℕ) (b : Bucket) : Bucket :=
  if b.lastRefill < now then
    { tokens := min (cfg.msgsPerSecond : ℚ)
        (b.tokens + (((now - b.lastRefill : ℕ) : ℚ) / 1000) * (cfg.msgsPerSecond : ℚ)),
      lastRefill := now }
  else b

/-- `ensureBucket`: the socket's bucket, created lazily with a full
token count at the current time. -/
def ensureBucket (cfg : Config) (s : ServerState) (sid now : ℕ) : Bucket :=
  (lookupA sid s.rateBuckets).getD { tokens := (cfg.msgsPerSecond : ℚ), lastRefill := now }

/-- `consumeToken(socketId)`: ensure the bucket, refill it, then take
one whole token if at least one is available.  Returns the decision and
the new state (the bucket mutations persist even when the decision is
negative, as in the source where the bucket object in the map is
mutated in place). -/
def consumeToken (cfg : Config) (s : ServerState) (sid now : ℕ) : Bool × ServerState :=
  let b := refillBucket cfg now (ensureBucket cfg s sid now)
  if 1 ≤ b.tokens then
    (true, { s with rateBuckets := setA sid { b with tokens := b.tokens - 1 } s.rateBuckets })
  else
    (false, { s with rateBuckets := setA sid b s.rateBuckets })

/-- The rate limiter lets the socket's next action through at time
`now` (one whole token available after the refill). -/
def rateOK (cfg : Config) (s : ServerState) (sid now : ℕ) : Prop :=
  1 ≤ (refillBucket cfg now (ensureBucket cfg s sid now)).tokens

instance (cfg : Config) (s : ServerState) (sid now : ℕ) : Decidable (rateOK cfg s sid now) :=
  inferInstanceAs (Decidable (_ ≤ _))

/-- Options of a `create-room` request.  The numeric fields are
modelled as optional naturals (`none` = absent or falsy, mirroring the
`opts.x || default` reads of the source); `Math.floor` is the identity
on them. -/
structure CreateOpts where
  ttlMinutes : Option ℕ
  maxPeers : Option ℕ
  usageLimit : Option ℕ
deriving DecidableEq

/-- JS `x || d` for an optional natural: the default when the value is
absent or `0` (falsy). -/
def orDefault (o : Option ℕ) (d : ℕ) : ℕ :=
  match o with
  | some v => if v = 0 then d else v
  | none => d

/-- The `create-room` handler.  The randomly generated room code and
secret token arrive as parameters (modelling `genCode`/`genToken`).
Clamps `ttlMinutes` and `maxPeers` to at least 1, stores `usageLimit`
when positive, registers the room and subscribes the requester to the
room's channel; fails only with `rate_limit`. -/
def createRoom (cfg : Config) (s : ServerState) (sid code tok : ℕ) (opts : CreateOpts)
    (now : ℕ) : Res × ServerState × List Event :=
  match consumeToken cfg s sid now with
  | (false, s') => (.err .rate_limit, s', [])
  | (true, s') =>
    let ttlMinutes := max 1 (orDefault opts.ttlMinutes 60)
    let maxPeers := max 1 (orDefault opts.maxPeers 1)
    let usageLeft : Option ℕ :=
      match opts.usageLimit with
      | some u => if 0 < u then some u else none
      | none => none
    let meta : RoomMeta :=
      { hostSocketId := sid, token := tok, peers := ∅, createdAt := now,
        ttlMs := ttlMinutes * 60 * 1000, maxPeers := maxPeers, usageLeft := usageLeft }
    (.ok, { s' with rooms := setA code meta s'.rooms,
                    channels := setA code (insert sid (channelOf s' code)) s'.channels }, [])

/-- The `join-room` handler.  Checks, in source order: rate limit,
presence of both params, room existence, token match, peer capacity
(`meta.maxPeers && meta.peers.size >= meta.maxPeers`, with JS
truthiness of `maxPeers`); on success adds the requester to the peer
set, subscribes it to the room channel and notifies the host with
`peer-joined`. -/
def joinRoom (cfg : Config) (s : ServerState) (sid : ℕ) (codeOpt tokOpt : Option ℕ)
    (now : ℕ) : Res × ServerState × List Event :=
  match consumeToken cfg s sid now with
  | (false, s') => (.err .rate_limit, s', [])
  | (true, s') =>
    match codeOpt, tokOpt with
    | some code, some tok =>
      match lookupA code s'.rooms with
      | none => (.err .room_not_found, s', [])
      | some meta =>
        if meta.token ≠ tok then (.err .invalid_token, s', [])
        else if meta.maxPeers ≠ 0 ∧ meta.maxPeers ≤ meta.peers.card then
          (.err .max_peers_reached, s', [])
        else
          (.ok,
           { s' with rooms := setA code { meta with peers := insert sid meta.peers } s'.rooms,
                     channels := setA code (insert sid (channelOf s' code)) s'.channels },
           [Event.peerJoined meta.hostSocketId sid code])
    | _, _ => (.err .missing_params, s', [])

/-- The `leave-room` handler: if the requester is a peer, remove it
from the peer set and unsubscribe it from the room channel (no
notification is emitted on this path); otherwise, if it is the host,
broadcast `host-left` to the channel and delete the room; otherwise do
nothing. -/
def leaveRoom (s : ServerState) (sid code : ℕ) : ServerState × List Event :=
  match lookupA code s.rooms with
  | none => (s, [])
  | some meta =>
    if sid ∈ meta.peers then
      ({ s with rooms := setA code { meta with peers := meta.peers.erase sid } s.rooms,
                channels := setA code ((channelOf s code).erase sid) s.channels }, [])
    else if meta.hostSocketId = sid then
      ({ s with rooms := eraseA code s.rooms }, [Event.hostLeft (channelOf s code) code])
    else (s, [])

/-- The `transfer-complete` handler: look the room up by its public
code only (the sender's identity is never consulted and no rate limit
is applied); if usage tracking is enabled, decrement with floor zero
and, at zero, broadcast `room-expired` (reason `usage_exhausted`) and
delete the room. -/
def transferComplete (s : ServerState) (_sid code : ℕ) : ServerState × List Event :=
  match lookupA code s.rooms with
  | none => (s, [])
  | some meta =>
    match meta.usageLeft with
    | none => (s, [])
    | some u =>
      if u - 1 = 0 then
        ({ s with rooms := eraseA code s.rooms },
         [Event.roomExpired (channelOf s code) code .usage_exhausted])
      else
        ({ s with rooms := setA code { meta with usageLeft := some (u - 1) } s.rooms }, [])

/-- `removeIpConnection(ip, socketId)`: drop the socket from the IP's
set, discarding the set entry when it becomes empty. -/
def removeIpConn (ip sid : ℕ) (l : List (ℕ × Finset ℕ)) : List (ℕ × Finset ℕ) :=
  match lookupA ip l with
  | none => l
  | some conns =>
    let conns' := conns.erase sid
    if conns' = ∅ then eraseA ip l else setA ip conns' l

/-- The room-cleanup loop of the `disconnect` handler: for each room
whose host is the leaving socket, broadcast `host-left` to the room
channel and drop the room; for each room holding it as a peer, remove
it from the peer set and notify the host with `peer-left`. -/
def discRooms (sid : ℕ) (chOf : ℕ → Finset ℕ) :
    List (ℕ × RoomMeta) → List (ℕ × RoomMeta) × List Event
  | [] => ([], [])
  | (code, meta) :: t =>
    let r := discRooms sid chOf t
    if meta.hostSocketId = sid then
      (r.1, Event.hostLeft (chOf code) code :: r.2)
    else if sid ∈ meta.peers then
      ((code, { meta with peers := meta.peers.erase sid }) :: r.1,
       Event.peerLeft meta.hostSocketId sid code :: r.2)
    else ((code, meta) :: r.1, r.2)

/-- The `disconnect` handler for a socket that connected from `ip`.
The transport first removes the socket from every broadcast channel
and from the connected set (socket.io does this before `disconnect`
handlers run); the handler then releases the IP-connection entry,
cleans up every room referencing the socket, and deletes its rate
bucket. -/
def disconnect (s : ServerState) (ip sid : ℕ) : ServerState × List Event :=
  let s1 : ServerState :=
    { s with channels := s.channels.map (fun p => (p.1, p.2.erase sid)),
             connected := s.connected.erase sid,
             ipConns := removeIpConn ip sid s.ipConns }
  let r := discRooms sid (fun c => channelOf s1 c) s1.rooms
  ({ s1 with rooms := r.1, rateBuckets := eraseA sid s1.rateBuckets }, r.2)

/-- Admission of a new connection from `ip`: the socket id is added to
the IP's set first; if the count then exceeds `MAX_CONNECTIONS_PER_IP`
the socket is sent an `ip_limit` error and terminated (so it does not
remain connected), and the handler returns before registering any
event listener — in particular the just-added entry of the IP set is
not removed.  Returns whether the connection was admitted. -/
def connect (cfg : Config) (s : ServerState) (ip sid : ℕ) : Bool × ServerState × List Event :=
  let conns' := insert sid (ipConnsOf s ip)
  let s' := { s with ipConns := setA ip conns' s.ipConns,
                     connected := insert sid s.connected }
  if cfg.maxConnPerIp < conns'.card then
    (false, { s' with connected := s'.connected.erase sid }, [Event.ipLimit sid])
  else (true, s', [])

/-- The body of the TTL-cleanup interval: every room with
`meta.ttlMs && meta.createdAt + meta.ttlMs <= now` gets a
`room-expired` broadcast (reason `ttl`) on its channel and is deleted;
other rooms are untouched. -/
def sweepRooms (now : ℕ) (chOf : ℕ → Finset ℕ) :
    List (ℕ × RoomMeta) → List (ℕ × RoomMeta) × List Event
  | [] => ([], [])
  | (code, meta) :: t =>
    let r := sweepRooms now chOf t
    if meta.ttlMs ≠ 0 ∧ meta.createdAt + meta.ttlMs ≤ now then
      (r.1, Event.roomExpired (chOf code) code .ttl :: r.2)
    else ((code, meta) :: r.1, r.2)

/-- One run of the periodic TTL sweeper at time `now`. -/
def sweep (s : ServerState) (now : ℕ) : ServerState × List Event :=
  let r := sweepRooms now (fun c => channelOf s c) s.rooms
  ({ s with rooms := r.1 }, r.2)

/-- A client-visible operation of the signaling core. -/
inductive Op
  | connect (ip sid : ℕ)
  | create (sid code tok : ℕ) (opts : CreateOpts) (now : ℕ)
  | join (sid : ℕ) (codeOpt tokOpt : Option ℕ) (now : ℕ)
  | leave (sid code : ℕ)
  | transfer (sid code : ℕ)
  | disc (ip sid : ℕ)
  | sweepAt (now : ℕ)
deriving DecidableEq

/-- The state reached by one operation (delivered events dropped). -/
def stepOp (cfg : Config) (s : ServerState) : Op → ServerState
  | .connect ip sid => (connect cfg s ip sid).2.1
  | .create sid code tok opts now => (createRoom cfg s sid code tok opts now).2.1
  | .join sid c t now => (joinRoom cfg s sid c t now).2.1
  | .leave sid code => (leaveRoom s sid code).1
  | .transfer sid code => (transferComplete s sid code).1
  | .disc ip sid => (disconnect s ip sid).1
  | .sweepAt now => (sweep s now).1

/-- The state reached by a sequence of operations. -/
def run (cfg : Config) (s : ServerState) : List Op → ServerState
  | [] => s
  | op :: t => run cfg (stepOp cfg s op) t

/-- Side conditions that hold of every operation of a real trace:
freshly generated room codes do not collide ("negligible collision
probability: treat as effectively unique"), a newly connecting socket
has a fresh id, join requests are issued by connected sockets, and a
host does not issue `join-room` for its own room's code. -/
def goodOp (s : ServerState) : Op → Bool
  | .connect _ sid => !(decide (sid ∈ s.connected))
  | .create _ code _ _ _ => (lookupA code s.rooms).isNone && (lookupA code s.channels).isNone
  | .join sid c _ _ =>
    decide (sid ∈ s.connected) &&
      (match c with
       | some code =>
         match lookupA code s.rooms with
         | some meta => decide (meta.hostSocketId ≠ sid)
         | none => true
       | none => true)
  | _ => true

/-- A trace each of whose operations satisfies `goodOp` at the state
where it executes. -/
def goodRun (cfg : Config) (s : ServerState) : List Op → Bool
  | [] => true
  | op :: t => goodOp s op && goodRun cfg (stepOp cfg s op) t

/-- `k` consecutive `transfer-complete` events for `code` from `sid`. -/
def tcRun (sid code : ℕ) : ℕ → ServerState → ServerState
  | 0, s => s
  | k + 1, s => (transferComplete (tcRun sid code k s) sid code).1

/-!  Concrete configurations, traces and states used to evaluate the
model on explicit inputs (socket ids 0 and 2 from IP 9, room code 1,
room token 5). -/

/-- Default environment: cap 10 connections per IP, 10 messages/s. -/
def exCfg : Config := ⟨10, 10⟩

/-- Environment with a per-IP connection cap of 1. -/
def exCfgCap1 : Config := ⟨1, 10⟩

/-- A `create-room` request with no options. -/
def exOptsDefault : CreateOpts := ⟨none, none, none⟩

/-- A `create-room` request with `maxPeers = 2` and `usageLimit = 2`. -/
def exOptsUsage : CreateOpts := ⟨none, some 2, some 2⟩

/-- The room that `create-room` with default options builds for host 0
at time 0 with code 1 and token 5. -/
def exRoomMeta : RoomMeta := ⟨0, 5, ∅, 0, 3600000, 1, none⟩

/-- `exRoomMeta` after peer 2 joined (the room is then full). -/
def exMetaFull : RoomMeta := ⟨0, 5, {2}, 0, 3600000, 1, none⟩

/-- The usage-limited room (`maxPeers = 2`, `usageLeft = 2`) with
peer 2 joined. -/
def exMetaUsage : RoomMeta := ⟨0, 5, {2}, 0, 3600000, 2, some 2⟩

/-- Socket 0 connects, creates a room and then joins its own room with
the correct code and token. -/
def exTraceSelfJoin : List Op :=
  [.connect 9 0, .create 0 1 5 exOptsDefault 0, .join 0 (some 1) (some 5) 0]

/-- Sockets 0 and 2 connect, 0 creates a room (`maxPeers = 1`), 2
joins it: the room is full. -/
def exTraceFull : List Op :=
  [.connect 9 0, .connect 9 2, .create 0 1 5 exOptsDefault 0, .join 2 (some 1) (some 5) 0]

/-- The registry after sockets 0 and 2 connect and 0 creates the room,
with socket 2's bucket drained to exactly zero (ten immediate actions
take a ten-token bucket to 0 with no time elapsed). -/
def exStateDrained : ServerState :=
  ⟨[(1, exRoomMeta)], [(1, {0})], [(9, {0, 2})], [(2, ⟨0, 0⟩)], {0, 2}⟩

/-- The registry right after socket 0 connects and creates the room
(its bucket has ten tokens minus the one the create consumed). -/
def exStatePostCreate : ServerState :=
  ⟨[(1, exRoomMeta)], [(1, {0})], [(9, {0})], [(0, ⟨9, 0⟩)], {0}⟩

/-- Sockets 0 and 2 connect, 0 creates a usage-limited room, 2 joins. -/
def exTraceUsage : List Op :=
  [.connect 9 0, .connect 9 2, .create 0 1 5 exOptsUsage 0, .join 2 (some 1) (some 5) 0]

/-- State holding the full room (host 0, peer 2). -/
def exStateFull : ServerState := run exCfg initState exTraceFull

/-- State holding the usage-limited room. -/
def exStateUsage : ServerState := run exCfg initState exTraceUsage

/-- The usage-limited state after one `transfer-complete`
(`usageLeft` has dropped to 1). -/
def exStateUsageOne : ServerState := tcRun 7 1 1 exStateUsage

/-- State with one admitted connection (socket 0) from IP 9 under the
cap-1 configuration. -/
def exStateOneConn : ServerState := (connect exCfgCap1 initState 9 0).2.1

/-- State whose only rate bucket, for socket 3, is empty since time 0. -/
def exStateBucket : ServerState := { initState with rateBuckets := [(3, ⟨0, 0⟩)] }

/-!  Association-list lemmas. -/

theorem lookupA_setA_self {α : Type} (k : ℕ) (v : α) (l : List (ℕ × α)) :
    lookupA k (setA k v l) = some v := by
  induction l with
  | nil => simp [setA, lookupA]
  | cons p t ih =>
    obtain ⟨k', v'⟩ := p
    by_cases h : k' = k
    · subst h; simp [setA, lookupA]
    · simp [setA, lookupA, h, ih]

theorem lookupA_setA_ne {α : Type} {k k' : ℕ} (v : α) (l : List (ℕ × α)) (h : k' ≠ k) :
    lookupA k' (setA k v l) = lookupA k' l := by
  induction l with
  | nil => simp [setA, lookupA, Ne.symm h]
  | cons p t ih =>
    obtain ⟨k₀, v₀⟩ := p
    by_cases hk : k₀ = k
    · subst hk; simp [setA, lookupA, Ne.symm h]
    · by_cases hk' : k₀ = k'
      · subst hk'; simp [setA, lookupA, hk]
      · simp [setA, lookupA, hk, hk', ih]

theorem lookupA_eraseA_self {α : Type} (k : ℕ) (l : List (ℕ × α)) :
    lookupA k (eraseA k l) = none := by
  induction l with
  | nil => rfl
  | cons p t ih =>
    obtain ⟨k₀, v₀⟩ := p
    by_cases hk : k₀ = k
    · simpa [eraseA, hk] using ih
    · simp [eraseA, lookupA, hk, ih]

theorem lookupA_eraseA_ne {α : Type} {k k' : ℕ} (l : List (ℕ × α)) (h : k' ≠ k) :
    lookupA k' (eraseA k l) = lookupA k' l := by
  induction l with
  | nil => rfl
  | cons p t ih =>
    obtain ⟨k₀, v₀⟩ := p
    by_cases hk : k₀ = k
    · subst hk; simp [eraseA, lookupA, Ne.symm h, ih]
    · simp [eraseA, lookupA, hk, ih]

theorem setA_eq_of_lookup {α : Type} {k : ℕ} {v : α} {l : List (ℕ × α)}
    (h : lookupA k l = some v) : setA k v l = l := by
  induction l with
  | nil => simp [lookupA] at h
  | cons p t ih =>
    obtain ⟨k₀, v₀⟩ := p
    by_cases hk : k₀ = k
    · subst hk
      have h' : some v₀ = some v := by simpa [lookupA] using h
      obtain rfl := Option.some.inj h'
      simp [setA]
    · simp only [lookupA, if_neg hk] at h
      simp [setA, hk, ih h]

theorem lookupA_none_iff {α : Type} {k : ℕ} {l : List (ℕ × α)} :
    lookupA k l = none ↔ k ∉ l.map Prod.fst := by
  induction l with
  | nil => simp [lookupA]
  | cons p t ih =>
    obtain ⟨k₀, v₀⟩ := p
    by_cases hk : k₀ = k
    · subst hk; simp [lookupA]
    · simp only [lookupA, if_neg hk, List.map_cons, List.mem_cons, not_or, ih]
      exact (and_iff_right fun e => hk e.symm).symm

theorem eraseA_eq_of_lookup_none {α : Type} {k : ℕ} {l : List (ℕ × α)}
    (h : lookupA k l = none) : eraseA k l = l := by
  induction l with
  | nil => rfl
  | cons p t ih =>
    obtain ⟨k₀, v₀⟩ := p
    by_cases hk : k₀ = k
    · subst hk; simp [lookupA] at h
    · simp only [lookupA, if_neg hk] at h
      simp [eraseA, hk, ih h]

theorem mem_keys_setA {α : Type} {a k : ℕ} {v : α} {l : List (ℕ × α)}
    (h : a ∈ (setA k v l).map Prod.fst) : a = k ∨ a ∈ l.map Prod.fst := by
  induction l with
  | nil => simpa [setA] using h
  | cons p t ih =>
    obtain ⟨k₀, v₀⟩ := p
    by_cases hk : k₀ = k
    · subst hk; simpa [setA] using h
    · simp only [setA, if_neg hk, List.map_cons, List.mem_cons] at h
      rcases h with h | h
      · exact Or.inr (by simp [h])
      · rcases ih h with h' | h'
        · exact Or.inl h'
        · exact Or.inr (by simp [h'])

theorem keysND_setA {α : Type} {k : ℕ} {v : α} {l : List (ℕ × α)}
    (h : keysND l) : keysND (setA k v l) := by
  induction l with
  | nil => simp [keysND, setA]
  | cons p t ih =>
    obtain ⟨k₀, v₀⟩ := p
    simp only [keysND, List.map_cons, List.nodup_cons] at h
    by_cases hk : k₀ = k
    · subst hk
      simpa [keysND, setA] using h
    · have ht := ih h.2
      simp only [keysND, setA, if_neg hk, List.map_cons, List.nodup_cons]
      refine ⟨fun hmem => ?_, ht⟩
      rcases mem_keys_setA hmem with h' | h'
      · exact hk h'
      · exact h.1 h'

theorem keys_eraseA_sublist {α : Type} (k : ℕ) (l : List (ℕ × α)) :
    ((eraseA k l).map Prod.fst).Sublist (l.map Prod.fst) := by
  induction l with
  | nil => simp [eraseA]
  | cons p t ih =>
    obtain ⟨k₀, v₀⟩ := p
    by_cases hk : k₀ = k
    · simpa [eraseA, hk] using ih.trans (List.sublist_cons_self _ _)
    · simpa [eraseA, hk] using ih.cons₂ k₀

theorem keysND_eraseA {α : Type} {k : ℕ} {l : List (ℕ × α)}
    (h : keysND l) : keysND (eraseA k l) :=
  (keys_eraseA_sublist k l).nodup h

theorem lookupA_map_snd {α β : Type} (k : ℕ) (f : α → β) (l : List (ℕ × α)) :
    lookupA k (l.map (fun p => (p.1, f p.2))) = (lookupA k l).map f := by
  induction l with
  | nil => rfl
  | cons p t ih =>
    obtain ⟨k₀, v₀⟩ := p
    by_cases hk : k₀ = k
    · simp [lookupA, hk]
    · simp [lookupA, hk, ih]

/-!  Lemmas about the disconnect room-cleanup loop. -/

theorem keys_discRooms_sublist (sid : ℕ) (chOf : ℕ → Finset ℕ) (l : List (ℕ × RoomMeta)) :
    (((discRooms sid chOf l).1).map Prod.fst).Sublist (l.map Prod.fst) := by
  induction l with
  | nil => simp [discRooms]
  | cons p t ih =>
    obtain ⟨code, meta⟩ := p
    by_cases h1 : meta.hostSocketId = sid
    · simpa [discRooms, h1] using ih.trans (List.sublist_cons_self _ _)
    · by_cases h2 : sid ∈ meta.peers
      · simpa [discRooms, h1, h2] using ih.cons₂ code
      · simpa [discRooms, h1, h2] using ih.cons₂ code

theorem keysND_discRooms {sid : ℕ} {chOf : ℕ → Finset ℕ} {l : List (ℕ × RoomMeta)}
    (h : keysND l) : keysND (discRooms sid chOf l).1 :=
  (keys_discRooms_sublist sid chOf l).nodup h

theorem discRooms_lookup_host {sid : ℕ} {chOf : ℕ → Finset ℕ} {l : List (ℕ × RoomMeta)}
    {code : ℕ} {m : RoomMeta} (hnd : keysND l) (hl : lookupA code l = some m)
    (hh : m.hostSocketId = sid) : lookupA code (discRooms sid chOf l).1 = none := by
  induction l with
  | nil => simp [lookupA] at hl
  | cons p t ih =>
    obtain ⟨k₀, v₀⟩ := p
    simp only [keysND, List.map_cons, List.nodup_cons] at hnd
    by_cases hk : k₀ = code
    · subst hk
      obtain rfl := Option.some.inj (by simpa [lookupA] using hl)
      have hnone : lookupA k₀ (discRooms sid chOf t).1 = none :=
        lookupA_none_iff.mpr fun hmem =>
          hnd.1 ((keys_discRooms_sublist sid chOf t).mem hmem)
      simp [discRooms, hh, hnone]
    · simp only [lookupA, if_neg hk] at hl
      have ht := ih hnd.2 hl
      by_cases h1 : v₀.hostSocketId = sid
      · simp [discRooms, h1, ht]
      · by_cases h2 : sid ∈ v₀.peers
        · simp [discRooms, h1, h2, lookupA, hk, ht]
        · simp [discRooms, h1, h2, lookupA, hk, ht]

theorem discRooms_lookup_surv {sid : ℕ} {chOf : ℕ → Finset ℕ} {l : List (ℕ × RoomMeta)}
    {code : ℕ} {m : RoomMeta} (hl : lookupA code l = some m)
    (hh : m.hostSocketId ≠ sid) :
    lookupA code (discRooms sid chOf l).1 = some { m with peers := m.peers.erase sid } := by
  induction l with
  | nil => simp [lookupA] at hl
  | cons p t ih =>
    obtain ⟨k₀, v₀⟩ := p
    by_cases hk : k₀ = code
    · subst hk
      obtain rfl := Option.some.inj (by simpa [lookupA] using hl)
      by_cases h2 : sid ∈ v₀.peers
      · simp [discRooms, hh, h2, lookupA]
      · simp [discRooms, hh, h2, lookupA, Finset.erase_eq_of_not_mem h2]
    · simp only [lookupA, if_neg hk] at hl
      have ht := ih hl
      by_cases h1 : v₀.hostSocketId = sid
      · simp [discRooms, h1, ht]
      · by_cases h2 : sid ∈ v₀.peers
        · simp [discRooms, h1, h2, lookupA, hk, ht]
        · simp [discRooms, h1, h2, lookupA, hk, ht]

theorem discRooms_lookup_inv {sid : ℕ} {chOf : ℕ → Finset ℕ} {l : List (ℕ × RoomMeta)}
    {code : ℕ} {m' : RoomMeta} (hnd : keysND l)
    (h : lookupA code (discRooms sid chOf l).1 = some m') :
    ∃ m, lookupA code l = some m ∧ m.hostSocketId ≠ sid ∧
      m' = { m with peers := m.peers.erase sid } := by
  rcases hl : lookupA code l with _ | m
  · have : lookupA code (discRooms sid chOf l).1 = none :=
      lookupA_none_iff.mpr fun hmem =>
        (lookupA_none_iff.mp hl) ((keys_discRooms_sublist sid chOf l).mem hmem)
    rw [this] at h; exact absurd h (by simp)
  · by_cases hh : m.hostSocketId = sid
    · rw [discRooms_lookup_host hnd hl hh] at h; exact absurd h (by simp)
    · rw [discRooms_lookup_surv hl hh] at h
      exact ⟨m, rfl, hh, (Option.some.inj h).symm⟩

theorem discRooms_hostLeft_mem {sid : ℕ} {chOf : ℕ → Finset ℕ} {l : List (ℕ × RoomMeta)}
    {code : ℕ} {m : RoomMeta} (hl : lookupA code l = some m)
    (hh : m.hostSocketId = sid) :
    Event.hostLeft (chOf code) code ∈ (discRooms sid chOf l).2 := by
  induction l with
  | nil => simp [lookupA] at hl
  | cons p t ih =>
    obtain ⟨k₀, v₀⟩ := p
    by_cases hk : k₀ = code
    · subst hk
      obtain rfl := Option.some.inj (by simpa [lookupA] using hl)
      simp [discRooms, hh]
    · simp only [lookupA, if_neg hk] at hl
      have ht := ih hl
      by_cases h1 : v₀.hostSocketId = sid
      · simp [discRooms, h1, ht]
      · by_cases h2 : sid ∈ v₀.peers
        · simp [discRooms, h1, h2, ht]
        · simp [discRooms, h1, h2, ht]

theorem discRooms_untouched {sid : ℕ} {chOf : ℕ → Finset ℕ} {l : List (ℕ × RoomMeta)}
    (h : ∀ p ∈ l, (p : ℕ × RoomMeta).2.hostSocketId ≠ sid ∧ sid ∉ p.2.peers) :
    discRooms sid chOf l = (l, []) := by
  induction l with
  | nil => rfl
  | cons p t ih =>
    obtain ⟨k₀, v₀⟩ := p
    have hp := h (k₀, v₀) (by simp)
    have ht := ih fun q hq => h q (by simp [hq])
    simp [discRooms, hp.1, hp.2, ht]

/-!  Lemmas about the TTL sweep loop. -/

theorem keys_sweepRooms_sublist (now : ℕ) (chOf : ℕ → Finset ℕ) (l : List (ℕ × RoomMeta)) :
    (((sweepRooms now chOf l).1).map Prod.fst).Sublist (l.map Prod.fst) := by
  induction l with
  | nil => simp [sweepRooms]
  | cons p t ih =>
    obtain ⟨code, meta⟩ := p
    by_cases h1 : meta.ttlMs ≠ 0 ∧ meta.createdAt + meta.ttlMs ≤ now
    · simpa [sweepRooms, h1] using ih.trans (List.sublist_cons_self _ _)
    · simpa [sweepRooms, h1] using ih.cons₂ code

theorem keysND_sweepRooms {now : ℕ} {chOf : ℕ → Finset ℕ} {l : List (ℕ × RoomMeta)}
    (h : keysND l) : keysND (sweepRooms now chOf l).1 :=
  (keys_sweepRooms_sublist now chOf l).nodup h

theorem sweepRooms_lookup_expired {now : ℕ} {chOf : ℕ → Finset ℕ} {l : List (ℕ × RoomMeta)}
    {code : ℕ} {m : RoomMeta} (hnd : keysND l) (hl : lookupA code l = some m)
    (he : m.ttlMs ≠ 0 ∧ m.createdAt + m.ttlMs ≤ now) :
    lookupA code (sweepRooms now chOf l).1 = none := by
  induction l with
  | nil => simp [lookupA] at hl
  | cons p t ih =>
    obtain ⟨k₀, v₀⟩ := p
    simp only [keysND, List.map_cons, List.nodup_cons] at hnd
    by_cases hk : k₀ = code
    · subst hk
      obtain rfl := Option.some.inj (by simpa [lookupA] using hl)
      have hnone : lookupA k₀ (sweepRooms now chOf t).1 = none :=
        lookupA_none_iff.mpr fun hmem =>
          hnd.1 ((keys_sweepRooms_sublist now chOf t).mem hmem)
      simp [sweepRooms, he, hnone]
    · simp only [lookupA, if_neg hk] at hl
      have ht := ih hnd.2 hl
      by_cases h1 : v₀.ttlMs ≠ 0 ∧ v₀.createdAt + v₀.ttlMs ≤ now
      · simp [sweepRooms, h1, ht]
      · simp [sweepRooms, h1, lookupA, hk, ht]

theorem sweepRooms_lookup_alive {now : ℕ} {chOf : ℕ → Finset ℕ} {l : List (ℕ × RoomMeta)}
    {code : ℕ} {m : RoomMeta} (hl : lookupA code l = some m)
    (he : ¬(m.ttlMs ≠ 0 ∧ m.createdAt + m.ttlMs ≤ now)) :
    lookupA code (sweepRooms now chOf l).1 = some m := by
  induction l with
  | nil => simp [lookupA] at hl
  | cons p t ih =>
    obtain ⟨k₀, v₀⟩ := p
    by_cases hk : k₀ = code
    · subst hk
      obtain rfl := Option.some.inj (by simpa [lookupA] using hl)
      simp [sweepRooms, he, lookupA]
    · simp only [lookupA, if_neg hk] at hl
      have ht := ih hl
      by_cases h1 : v₀.ttlMs ≠ 0 ∧ v₀.createdAt + v₀.ttlMs ≤ now
      · simp [sweepRooms, h1, ht]
      · simp [sweepRooms, h1, lookupA, hk, ht]

theorem sweepRooms_lookup_inv {now : ℕ} {chOf : ℕ → Finset ℕ} {l : List (ℕ × RoomMeta)}
    {code : ℕ} {m' : RoomMeta} (hnd : keysND l)
    (h : lookupA code (sweepRooms now chOf l).1 = some m') :
    lookupA code l = some m' ∧ ¬(m'.ttlMs ≠ 0 ∧ m'.createdAt + m'.ttlMs ≤ now) := by
  rcases hl : lookupA code l with _ | m
  · have : lookupA code (sweepRooms now chOf l).1 = none :=
      lookupA_none_iff.mpr fun hmem =>
        (lookupA_none_iff.mp hl) ((keys_sweepRooms_sublist now chOf l).mem hmem)
    rw [this] at h; exact absurd h (by simp)
  · by_cases he : m.ttlMs ≠ 0 ∧ m.createdAt + m.ttlMs ≤ now
    · rw [sweepRooms_lookup_expired hnd hl he] at h; exact absurd h (by simp)
    · rw [sweepRooms_lookup_alive hl he] at h
      have hm : m = m' := Option.some.inj h
      subst hm
      exact ⟨rfl, he⟩

theorem sweepRooms_event_mem {now : ℕ} {chOf : ℕ → Finset ℕ} {l : List (ℕ × RoomMeta)}
    {code : ℕ} {m : RoomMeta} (hl : lookupA code l = some m)
    (he : m.ttlMs ≠ 0 ∧ m.createdAt + m.ttlMs ≤ now) :
    Event.roomExpired (chOf code) code .ttl ∈ (sweepRooms now chOf l).2 := by
  induction l with
  | nil => simp [lookupA] at hl
  | cons p t ih =>
    obtain ⟨k₀, v₀⟩ := p
    by_cases hk : k₀ = code
    · subst hk
      obtain rfl := Option.some.inj (by simpa [lookupA] using hl)
      simp [sweepRooms, he]
    · simp only [lookupA, if_neg hk] at hl
      have ht := ih hl
      by_cases h1 : v₀.ttlMs ≠ 0 ∧ v₀.createdAt + v₀.ttlMs ≤ now
      · simp [sweepRooms, h1, ht]
      · simp [sweepRooms, h1, ht]

theorem sweepRooms_event_code_mem {now : ℕ} {chOf : ℕ → Finset ℕ} {l : List (ℕ × RoomMeta)}
    {r : Finset ℕ} {c : ℕ} {rs : ExpReason}
    (h : Event.roomExpired r c rs ∈ (sweepRooms now chOf l).2) : c ∈ l.map Prod.fst := by
  induction l with
  | nil => simp [sweepRooms] at h
  | cons p t ih =>
    obtain ⟨k₀, v₀⟩ := p
    by_cases h1 : v₀.ttlMs ≠ 0 ∧ v₀.createdAt + v₀.ttlMs ≤ now
    · simp only [sweepRooms, if_pos h1, List.mem_cons] at h
      rcases h with h | h
      · obtain ⟨-, rfl, -⟩ := Event.roomExpired.inj h
        simp
      · simp [ih h]
    · simp only [sweepRooms, if_neg h1] at h
      simp [ih h]

theorem sweepRooms_no_event_alive {now : ℕ} {chOf : ℕ → Finset ℕ} {l : List (ℕ × RoomMeta)}
    {code : ℕ} {m : RoomMeta} (hnd : keysND l) (hl : lookupA code l = some m)
    (he : ¬(m.ttlMs ≠ 0 ∧ m.createdAt + m.ttlMs ≤ now)) (r : Finset ℕ) (rs : ExpReason) :
    Event.roomExpired r code rs ∉ (sweepRooms now chOf l).2 := by
  induction l with
  | nil => simp [sweepRooms]
  | cons p t ih =>
    obtain ⟨k₀, v₀⟩ := p
    simp only [keysND, List.map_cons, List.nodup_cons] at hnd
    by_cases hk : k₀ = code
    · subst hk
      obtain rfl := Option.some.inj (by simpa [lookupA] using hl)
      intro hmem
      simp only [sweepRooms, if_neg he] at hmem
      exact hnd.1 (sweepRooms_event_code_mem hmem)
    · simp only [lookupA, if_neg hk] at hl
      have ht := ih hnd.2 hl
      intro hmem
      by_cases h1 : v₀.ttlMs ≠ 0 ∧ v₀.createdAt + v₀.ttlMs ≤ now
      · simp only [sweepRooms, if_pos h1, List.mem_cons] at hmem
        rcases hmem with hmem | hmem
        · obtain ⟨-, he', -⟩ := Event.roomExpired.inj hmem
          exact hk he'.symm
        · exact ht hmem
      · simp only [sweepRooms, if_neg h1, List.mem_cons] at hmem
        exact ht hmem

/-!  State-component lemmas about `consumeToken`. -/

theorem consumeToken_rooms (cfg : Config) (s : ServerState) (sid now : ℕ) :
    (consumeToken cfg s sid now).2.rooms = s.rooms := by
  by_cases h : 1 ≤ (refillBucket cfg now (ensureBucket cfg s sid now)).tokens <;>
    simp [consumeToken, h]

theorem consumeToken_channels (cfg : Config) (s : ServerState) (sid now : ℕ) :
    (consumeToken cfg s sid now).2.channels = s.channels := by
  by_cases h : 1 ≤ (refillBucket cfg now (ensureBucket cfg s sid now)).tokens <;>
    simp [consumeToken, h]

theorem consumeToken_ipConns (cfg : Config) (s : ServerState) (sid now : ℕ) :
    (consumeToken cfg s sid now).2.ipConns = s.ipConns := by
  by_cases h : 1 ≤ (refillBucket cfg now (ensureBucket cfg s sid now)).tokens <;>
    simp [consumeToken, h]

theorem consumeToken_connected (cfg : Config) (s : ServerState) (sid now : ℕ) :
    (consumeToken cfg s sid now).2.connected = s.connected := by
  by_cases h : 1 ≤ (refillBucket cfg now (ensureBucket cfg s sid now)).tokens <;>
    simp [consumeToken, h]

theorem consumeToken_true_iff (cfg : Config) (s : ServerState) (sid now : ℕ) :
    (consumeToken cfg s sid now).1 = true ↔ rateOK cfg s sid now := by
  by_cases h : 1 ≤ (refillBucket cfg now (ensureBucket cfg s sid now)).tokens <;>
    simp [consumeToken, rateOK, h]

theorem consumeToken_buckets_ne {cfg : Config} {s : ServerState} {sid now : ℕ}
    (sid' : ℕ) (h : sid' ≠ sid) :
    lookupA sid' (consumeToken cfg s sid now).2.rateBuckets = lookupA sid' s.rateBuckets := by
  by_cases hc : 1 ≤ (refillBucket cfg now (ensureBucket cfg s sid now)).tokens <;>
    simp [consumeToken, hc, lookupA_setA_ne _ _ h]

/-!  The unconditional registry invariant: distinct room codes, clamped
room parameters, and a peer count within capacity. -/

/-- The per-room facts established by `create-room`'s clamping and
maintained by every handler. -/
def roomOK (m : RoomMeta) : Prop :=
  1 ≤ m.maxPeers ∧ m.peers.card ≤ m.maxPeers ∧ 1 ≤ m.ttlMs

/-- The room table is well formed: distinct codes and `roomOK` rooms. -/
def roomsOK (l : List (ℕ × RoomMeta)) : Prop :=
  keysND l ∧ ∀ code meta, lookupA code l = some meta → roomOK meta

/-- Invariant of every reachable server state. -/
def InvU (s : ServerState) : Prop := roomsOK s.rooms

theorem roomsOK_setA {l : List (ℕ × RoomMeta)} {code : ℕ} {m : RoomMeta}
    (hl : roomsOK l) (hm : roomOK m) : roomsOK (setA code m l) := by
  refine ⟨keysND_setA hl.1, fun c mm hc => ?_⟩
  by_cases h : c = code
  · subst h
    rw [lookupA_setA_self] at hc
    obtain rfl := Option.some.inj hc
    exact hm
  · rw [lookupA_setA_ne _ _ h] at hc
    exact hl.2 c mm hc

theorem roomsOK_eraseA {l : List (ℕ × RoomMeta)} {code : ℕ}
    (hl : roomsOK l) : roomsOK (eraseA code l) := by
  refine ⟨keysND_eraseA hl.1, fun c mm hc => ?_⟩
  by_cases h : c = code
  · subst h; rw [lookupA_eraseA_self] at hc; cases hc
  · rw [lookupA_eraseA_ne _ h] at hc
    exact hl.2 c mm hc

theorem roomsOK_discRooms {sid : ℕ} {chOf : ℕ → Finset ℕ} {l : List (ℕ × RoomMeta)}
    (hl : roomsOK l) : roomsOK (discRooms sid chOf l).1 := by
  refine ⟨keysND_discRooms hl.1, fun c mm hc => ?_⟩
  obtain ⟨m, hm, -, rfl⟩ := discRooms_lookup_inv hl.1 hc
  obtain ⟨h1, h2, h3⟩ := hl.2 c m hm
  exact ⟨h1, le_trans Finset.card_erase_le h2, h3⟩

theorem roomsOK_sweepRooms {now : ℕ} {chOf : ℕ → Finset ℕ} {l : List (ℕ × RoomMeta)}
    (hl : roomsOK l) : roomsOK (sweepRooms now chOf l).1 := by
  refine ⟨keysND_sweepRooms hl.1, fun c mm hc => ?_⟩
  obtain ⟨hm, -⟩ := sweepRooms_lookup_inv hl.1 hc
  exact hl.2 c mm hm

theorem invU_of_rooms_eq {s s' : ServerState} (h : s'.rooms = s.rooms)
    (hI : InvU s) : InvU s' := by
  unfold InvU at *
  rw [h]
  exact hI

theorem connect_state_rooms (cfg : Config) (s : ServerState) (ip sid : ℕ) :
    (connect cfg s ip sid).2.1.rooms = s.rooms := by
  by_cases h : cfg.maxConnPerIp < (insert sid (ipConnsOf s ip)).card <;> simp [connect, h]

theorem connect_state_channels (cfg : Config) (s : ServerState) (ip sid : ℕ) :
    (connect cfg s ip sid).2.1.channels = s.channels := by
  by_cases h : cfg.maxConnPerIp < (insert sid (ipConnsOf s ip)).card <;> simp [connect, h]

theorem createRoom_meta_ok (opts : CreateOpts) (sid tok now : ℕ) :
    roomOK { hostSocketId := sid, token := tok, peers := ∅, createdAt := now,
             ttlMs := max 1 (orDefault opts.ttlMinutes 60) * 60 * 1000,
             maxPeers := max 1 (orDefault opts.maxPeers 1),
             usageLeft := (match opts.usageLimit with
                           | some u => if 0 < u then some u else none
                           | none => none) } := by
  refine ⟨le_max_left _ _, by simp, ?_⟩
  have h1 : 1 ≤ max 1 (orDefault opts.ttlMinutes 60) := le_max_left _ _
  calc 1 ≤ max 1 (orDefault opts.ttlMinutes 60) := h1
    _ ≤ max 1 (orDefault opts.ttlMinutes 60) * 60 := Nat.le_mul_of_pos_right _ (by norm_num)
    _ ≤ max 1 (orDefault opts.ttlMinutes 60) * 60 * 1000 :=
        Nat.le_mul_of_pos_right _ (by norm_num)

theorem invU_step (cfg : Config) (s : ServerState) (op : Op) (hI : InvU s) :
    InvU (stepOp cfg s op) := by
  cases op with
  | connect ip sid =>
    exact invU_of_rooms_eq (connect_state_rooms cfg s ip sid) hI
  | create sid code tok opts now =>
    rcases hct : consumeToken cfg s sid now with ⟨b, s'⟩
    have hr : s'.rooms = s.rooms := by
      have := consumeToken_rooms cfg s sid now
      rwa [hct] at this
    have hIs' : InvU s' := invU_of_rooms_eq hr hI
    cases b with
    | false => simpa [stepOp, createRoom, hct] using hIs'
    | true =>
      simp only [stepOp, createRoom, hct]
      exact roomsOK_setA hIs' (createRoom_meta_ok opts sid tok now)
  | join sid codeOpt tokOpt now =>
    rcases hct : consumeToken cfg s sid now with ⟨b, s'⟩
    have hr : s'.rooms = s.rooms := by
      have := consumeToken_rooms cfg s sid now
      rwa [hct] at this
    have hIs' : InvU s' := invU_of_rooms_eq hr hI
    cases b with
    | false => simpa [stepOp, joinRoom, hct] using hIs'
    | true =>
      rcases codeOpt with _ | code
      · simpa [stepOp, joinRoom, hct] using hIs'
      rcases tokOpt with _ | tok
      · simpa [stepOp, joinRoom, hct] using hIs'
      rcases hlook : lookupA code s'.rooms with _ | meta
      · simpa [stepOp, joinRoom, hct, hlook] using hIs'
      by_cases htok : meta.token ≠ tok
      · simpa [stepOp, joinRoom, hct, hlook, htok] using hIs'
      by_cases hcap : meta.maxPeers ≠ 0 ∧ meta.maxPeers ≤ meta.peers.card
      · simpa [stepOp, joinRoom, hct, hlook, htok, hcap] using hIs'
      · simp only [stepOp, joinRoom, hct, hlook, if_neg htok, if_neg hcap]
        refine roomsOK_setA hIs' ?_
        obtain ⟨h1, h2, h3⟩ := hIs'.2 code meta hlook
        have hne : meta.maxPeers ≠ 0 := by omega
        have hlt : meta.peers.card < meta.maxPeers := by
          rcases Nat.lt_or_ge meta.peers.card meta.maxPeers with h | h
          · exact h
          · exact absurd ⟨hne, h⟩ hcap
        have := Finset.card_insert_le sid meta.peers
        refine ⟨h1, ?_, h3⟩
        show (insert sid meta.peers).card ≤ meta.maxPeers
        omega
  | leave sid code =>
    rcases hlook : lookupA code s.rooms with _ | meta
    · simpa [stepOp, leaveRoom, hlook] using hI
    by_cases hp : sid ∈ meta.peers
    · simp only [stepOp, leaveRoom, hlook, if_pos hp]
      refine roomsOK_setA hI ?_
      obtain ⟨h1, h2, h3⟩ := hI.2 code meta hlook
      exact ⟨h1, le_trans Finset.card_erase_le h2, h3⟩
    · by_cases hh : meta.hostSocketId = sid
      · simp only [stepOp, leaveRoom, hlook, if_neg hp, if_pos hh]
        exact roomsOK_eraseA hI
      · simpa [stepOp, leaveRoom, hlook, hp, hh] using hI
  | transfer sid code =>
    rcases hlook : lookupA code s.rooms with _ | meta
    · simpa [stepOp, transferComplete, hlook] using hI
    rcases hu : meta.usageLeft with _ | u
    · simpa [stepOp, transferComplete, hlook, hu] using hI
    by_cases hz : u - 1 = 0
    · simp only [stepOp, transferComplete, hlook, hu, if_pos hz]
      exact roomsOK_eraseA hI
    · simp only [stepOp, transferComplete, hlook, hu, if_neg hz]
      refine roomsOK_setA hI ?_
      obtain ⟨h1, h2, h3⟩ := hI.2 code meta hlook
      exact ⟨h1, h2, h3⟩
  | disc ip sid =>
    exact roomsOK_discRooms hI
  | sweepAt now =>
    exact roomsOK_sweepRooms hI

theorem invU_run (cfg : Config) (ops : List Op) :
    ∀ s : ServerState, InvU s → InvU (run cfg s ops) := by
  induction ops with
  | nil => intro s h; exact h
  | cons op t ih => intro s h; exact ih _ (invU_step cfg s op h)

theorem invU_init : InvU initState := by
  exact ⟨List.nodup_nil, fun c m h => by simp [lookupA, initState] at h⟩

/-!  The good-trace invariant: the host is not one of its own room's
peers, the room channel holds exactly the host and the peers, and
peers are connected sockets. -/

/-- Membership facts tying a room to the transport state. -/
def hostOK (s : ServerState) (code : ℕ) (m : RoomMeta) : Prop :=
  m.hostSocketId ∉ m.peers ∧
  channelOf s code = insert m.hostSocketId m.peers ∧
  m.peers ⊆ s.connected

/-- Invariant of states reached by good traces. -/
def InvG (s : ServerState) : Prop :=
  InvU s ∧ ∀ code meta, lookupA code s.rooms = some meta → hostOK s code meta

theorem channelOf_eq_of_channels_eq {s s' : ServerState} (h : s'.channels = s.channels)
    (code : ℕ) : channelOf s' code = channelOf s code := by
  unfold channelOf
  rw [h]

theorem invG_of_parts {s s' : ServerState} (hr : s'.rooms = s.rooms)
    (hc : s'.channels = s.channels) (hco : s'.connected = s.connected)
    (h : InvG s) : InvG s' := by
  refine ⟨invU_of_rooms_eq hr h.1, fun code m hl => ?_⟩
  rw [hr] at hl
  obtain ⟨h1, h2, h3⟩ := h.2 code m hl
  refine ⟨h1, ?_, ?_⟩
  · rw [channelOf_eq_of_channels_eq hc]
    exact h2
  · rw [hco]
    exact h3

theorem lookupA_map_erase (sid c : ℕ) (l : List (ℕ × Finset ℕ)) :
    (lookupA c (l.map (fun p => (p.1, p.2.erase sid)))).getD ∅ =
      ((lookupA c l).getD ∅).erase sid := by
  induction l with
  | nil => simp [lookupA]
  | cons p t ih =>
    obtain ⟨k₀, v₀⟩ := p
    by_cases hk : k₀ = c <;> simp [lookupA, hk, ih]

theorem channelOf_map_erase (s : ServerState) (sid c : ℕ) :
    (lookupA c (s.channels.map (fun p => (p.1, p.2.erase sid)))).getD ∅ =
      (channelOf s c).erase sid := by
  unfold channelOf
  exact lookupA_map_erase sid c s.channels

theorem invG_step (cfg : Config) (s : ServerState) (op : Op)
    (hg : goodOp s op = true) (hI : InvG s) : InvG (stepOp cfg s op) := by
  have hU : InvU (stepOp cfg s op) := invU_step cfg s op hI.1
  refine ⟨hU, ?_⟩
  cases op with
  | connect ip sid =>
    simp only [goodOp, Bool.not_eq_true', decide_eq_false_iff_not] at hg
    by_cases hcap : cfg.maxConnPerIp < (insert sid (ipConnsOf s ip)).card
    · intro c m hl
      simp only [stepOp, connect, if_pos hcap] at hl ⊢
      obtain ⟨h1, h2, h3⟩ := hI.2 c m hl
      refine ⟨h1, h2, ?_⟩
      rw [Finset.erase_insert hg]
      exact h3
    · intro c m hl
      simp only [stepOp, connect, if_neg hcap] at hl ⊢
      obtain ⟨h1, h2, h3⟩ := hI.2 c m hl
      exact ⟨h1, h2, h3.trans (Finset.subset_insert _ _)⟩
  | create sid code tok opts now =>
    simp only [goodOp, Bool.and_eq_true, Option.isNone_iff_eq_none] at hg
    rcases hct : consumeToken cfg s sid now with ⟨b, s'⟩
    have hr : s'.rooms = s.rooms := by
      have := consumeToken_rooms cfg s sid now; rwa [hct] at this
    have hch : s'.channels = s.channels := by
      have := consumeToken_channels cfg s sid now; rwa [hct] at this
    have hco : s'.connected = s.connected := by
      have := consumeToken_connected cfg s sid now; rwa [hct] at this
    have hIs' : InvG s' := invG_of_parts hr hch hco hI
    cases b with
    | false =>
      intro c m hl
      simp only [stepOp, createRoom, hct] at hl ⊢
      exact hIs'.2 c m hl
    | true =>
      intro c m hl
      simp only [stepOp, createRoom, hct] at hl ⊢
      by_cases hc : c = code
      · subst hc
        rw [lookupA_setA_self] at hl
        obtain rfl := Option.some.inj hl
        refine ⟨by simp, ?_, by simp⟩
        show (lookupA c (setA c _ s'.channels)).getD ∅ = _
        rw [lookupA_setA_self]
        have : channelOf s' c = ∅ := by
          unfold channelOf
          rw [hch, hg.2]
          rfl
        simp [this]
      · rw [lookupA_setA_ne _ _ hc] at hl
        obtain ⟨h1, h2, h3⟩ := hIs'.2 c m hl
        refine ⟨h1, ?_, h3⟩
        show (lookupA c (setA code _ s'.channels)).getD ∅ = _
        rw [lookupA_setA_ne _ _ hc]
        exact h2
  | join sid codeOpt tokOpt now =>
    rcases hct : consumeToken cfg s sid now with ⟨b, s'⟩
    have hr : s'.rooms = s.rooms := by
      have := consumeToken_rooms cfg s sid now; rwa [hct] at this
    have hch : s'.channels = s.channels := by
      have := consumeToken_channels cfg s sid now; rwa [hct] at this
    have hco : s'.connected = s.connected := by
      have := consumeToken_connected cfg s sid now; rwa [hct] at this
    have hIs' : InvG s' := invG_of_parts hr hch hco hI
    cases b with
    | false =>
      intro c m hl
      simp only [stepOp, joinRoom, hct] at hl ⊢
      exact hIs'.2 c m hl
    | true =>
      rcases codeOpt with _ | code
      · intro c m hl
        simp only [stepOp, joinRoom, hct] at hl ⊢
        exact hIs'.2 c m hl
      rcases tokOpt with _ | tok
      · intro c m hl
        simp only [stepOp, joinRoom, hct] at hl ⊢
        exact hIs'.2 c m hl
      rcases hlook : lookupA code s'.rooms with _ | meta
      · intro c m hl
        simp only [stepOp, joinRoom, hct, hlook] at hl ⊢
        exact hIs'.2 c m hl
      have hlookS : lookupA code s.rooms = some meta := by rwa [hr] at hlook
      simp only [goodOp, Bool.and_eq_true, decide_eq_true_eq, hlookS] at hg
      by_cases htok : meta.token ≠ tok
      · intro c m hl
        simp only [stepOp, joinRoom, hct, hlook, if_pos htok] at hl ⊢
        exact hIs'.2 c m hl
      by_cases hcap : meta.maxPeers ≠ 0 ∧ meta.maxPeers ≤ meta.peers.card
      · intro c m hl
        simp only [stepOp, joinRoom, hct, hlook, if_neg htok, if_pos hcap] at hl ⊢
        exact hIs'.2 c m hl
      intro c m hl
      simp only [stepOp, joinRoom, hct, hlook, if_neg htok, if_neg hcap] at hl ⊢
      obtain ⟨hghost, hgconn⟩ := And.intro hg.2 hg.1
      obtain ⟨h1, h2, h3⟩ := hIs'.2 code meta hlook
      by_cases hc : c = code
      · subst hc
        rw [lookupA_setA_self] at hl
        obtain rfl := Option.some.inj hl
        refine ⟨?_, ?_, ?_⟩
        · show meta.hostSocketId ∉ insert sid meta.peers
          intro hx
          rcases Finset.mem_insert.mp hx with hx | hx
          · exact hghost hx
          · exact h1 hx
        · show (lookupA c (setA c _ s'.channels)).getD ∅ = _
          rw [lookupA_setA_self]
          show insert sid (channelOf s' c) = _
          rw [channelOf_eq_of_channels_eq hch] at h2 ⊢
          rw [h2]
          exact Finset.Insert.comm sid meta.hostSocketId meta.peers
        · show insert sid meta.peers ⊆ s'.connected
          rw [hco]
          exact Finset.insert_subset_iff.mpr ⟨hgconn, by rw [← hco]; exact h3⟩
      · rw [lookupA_setA_ne _ _ hc] at hl
        obtain ⟨k1, k2, k3⟩ := hIs'.2 c m hl
        refine ⟨k1, ?_, k3⟩
        show (lookupA c (setA code _ s'.channels)).getD ∅ = _
        rw [lookupA_setA_ne _ _ hc]
        exact k2
  | leave sid code =>
    rcases hlook : lookupA code s.rooms with _ | meta
    · intro c m hl
      simp only [stepOp, leaveRoom, hlook] at hl ⊢
      exact hI.2 c m hl
    by_cases hp : sid ∈ meta.peers
    · have hmeta := hI.2 code meta hlook
      have hne : meta.hostSocketId ≠ sid := fun he => hmeta.1 (he ▸ hp)
      intro c m hl
      simp only [stepOp, leaveRoom, hlook, if_pos hp] at hl ⊢
      by_cases hc : c = code
      · subst hc
        rw [lookupA_setA_self] at hl
        obtain rfl := Option.some.inj hl
        refine ⟨?_, ?_, ?_⟩
        · show meta.hostSocketId ∉ meta.peers.erase sid
          exact fun hx => hmeta.1 (Finset.mem_of_mem_erase hx)
        · show (lookupA c (setA c _ s.channels)).getD ∅ = _
          rw [lookupA_setA_self]
          show (channelOf s c).erase sid = _
          rw [hmeta.2.1]
          exact Finset.erase_insert_of_ne hne
        · show meta.peers.erase sid ⊆ s.connected
          exact (Finset.erase_subset _ _).trans hmeta.2.2
      · rw [lookupA_setA_ne _ _ hc] at hl
        obtain ⟨k1, k2, k3⟩ := hI.2 c m hl
        refine ⟨k1, ?_, k3⟩
        show (lookupA c (setA code _ s.channels)).getD ∅ = _
        rw [lookupA_setA_ne _ _ hc]
        exact k2
    · by_cases hh : meta.hostSocketId = sid
      · intro c m hl
        simp only [stepOp, leaveRoom, hlook, if_neg hp, if_pos hh] at hl ⊢
        by_cases hc : c = code
        · subst hc
          rw [lookupA_eraseA_self] at hl
          cases hl
        · rw [lookupA_eraseA_ne _ hc] at hl
          exact hI.2 c m hl
      · intro c m hl
        simp only [stepOp, leaveRoom, hlook, if_neg hp, if_neg hh] at hl ⊢
        exact hI.2 c m hl
  | transfer sid code =>
    rcases hlook : lookupA code s.rooms with _ | meta
    · intro c m hl
      simp only [stepOp, transferComplete, hlook] at hl ⊢
      exact hI.2 c m hl
    rcases hu : meta.usageLeft with _ | u
    · intro c m hl
      simp only [stepOp, transferComplete, hlook, hu] at hl ⊢
      exact hI.2 c m hl
    by_cases hz : u - 1 = 0
    · intro c m hl
      simp only [stepOp, transferComplete, hlook, hu, if_pos hz] at hl ⊢
      by_cases hc : c = code
      · subst hc; rw [lookupA_eraseA_self] at hl; cases hl
      · rw [lookupA_eraseA_ne _ hc] at hl
        exact hI.2 c m hl
    · intro c m hl
      simp only [stepOp, transferComplete, hlook, hu, if_neg hz] at hl ⊢
      by_cases hc : c = code
      · subst hc
        rw [lookupA_setA_self] at hl
        obtain rfl := Option.some.inj hl
        obtain ⟨h1, h2, h3⟩ := hI.2 c meta hlook
        exact ⟨h1, h2, h3⟩
      · rw [lookupA_setA_ne _ _ hc] at hl
        exact hI.2 c m hl
  | disc ip sid =>
    intro c m hl
    simp only [stepOp, disconnect] at hl ⊢
    obtain ⟨meta, hm, hh, rfl⟩ := discRooms_lookup_inv hI.1.1 hl
    obtain ⟨h1, h2, h3⟩ := hI.2 c meta hm
    refine ⟨?_, ?_, ?_⟩
    · show meta.hostSocketId ∉ meta.peers.erase sid
      exact fun hx => h1 (Finset.mem_of_mem_erase hx)
    · show (lookupA c (s.channels.map _)).getD ∅ = _
      rw [channelOf_map_erase s sid c, h2]
      exact Finset.erase_insert_of_ne hh
    · show meta.peers.erase sid ⊆ s.connected.erase sid
      intro x hx
      obtain ⟨hx1, hx2⟩ := Finset.mem_erase.mp hx
      exact Finset.mem_erase.mpr ⟨hx1, h3 hx2⟩
  | sweepAt now =>
    intro c m hl
    simp only [stepOp, sweep] at hl ⊢
    obtain ⟨hm, -⟩ := sweepRooms_lookup_inv hI.1.1 hl
    exact hI.2 c m hm

theorem goodRun_cons {cfg : Config} {s : ServerState} {op : Op} {t : List Op}
    (h : goodRun cfg s (op :: t) = true) :
    goodOp s op = true ∧ goodRun cfg (stepOp cfg s op) t = true := by
  simpa [goodRun, Bool.and_eq_true] using h

theorem invG_run (cfg : Config) (ops : List Op) :
    ∀ s : ServerState, goodRun cfg s ops = true → InvG s → InvG (run cfg s ops) := by
  induction ops with
  | nil => intro s _ h; exact h
  | cons op t ih =>
    intro s hg h
    obtain ⟨h1, h2⟩ := goodRun_cons hg
    exact ih _ h2 (invG_step cfg s op h1 h)

theorem invG_init : InvG initState := by
  exact ⟨invU_init, fun c m h => by simp [lookupA, initState] at h⟩

/-!  Field computations for `disconnect`, and idempotence helpers. -/

theorem serverState_eq_of_fields {x y : ServerState} (h1 : x.rooms = y.rooms)
    (h2 : x.channels = y.channels) (h3 : x.ipConns = y.ipConns)
    (h4 : x.rateBuckets = y.rateBuckets) (h5 : x.connected = y.connected) : x = y := by
  cases x; cases y
  simp_all

theorem disconnect_state_channels (s : ServerState) (ip sid : ℕ) :
    (disconnect s ip sid).1.channels = s.channels.map (fun p => (p.1, p.2.erase sid)) := by
  simp [disconnect]

theorem disconnect_state_connected (s : ServerState) (ip sid : ℕ) :
    (disconnect s ip sid).1.connected = s.connected.erase sid := by
  simp [disconnect]

theorem disconnect_state_ipConns (s : ServerState) (ip sid : ℕ) :
    (disconnect s ip sid).1.ipConns = removeIpConn ip sid s.ipConns := by
  simp [disconnect]

theorem disconnect_state_buckets (s : ServerState) (ip sid : ℕ) :
    (disconnect s ip sid).1.rateBuckets = eraseA sid s.rateBuckets := by
  simp [disconnect]

theorem disconnect_state_rooms (s : ServerState) (ip sid : ℕ) :
    (disconnect s ip sid).1.rooms =
      (discRooms sid
        (fun c => (lookupA c (s.channels.map (fun p => (p.1, p.2.erase sid)))).getD ∅)
        s.rooms).1 := by
  simp [disconnect, channelOf]

theorem disconnect_events (s : ServerState) (ip sid : ℕ) :
    (disconnect s ip sid).2 =
      (discRooms sid
        (fun c => (lookupA c (s.channels.map (fun p => (p.1, p.2.erase sid)))).getD ∅)
        s.rooms).2 := by
  simp [disconnect, channelOf]

theorem map_erase_idem (sid : ℕ) (l : List (ℕ × Finset ℕ)) :
    ((l.map (fun p => (p.1, p.2.erase sid))).map (fun p => (p.1, p.2.erase sid))) =
      l.map (fun p => (p.1, p.2.erase sid)) := by
  induction l with
  | nil => rfl
  | cons p t ih => simp [ih, Finset.erase_idem]

theorem removeIpConn_idem (ip sid : ℕ) (l : List (ℕ × Finset ℕ)) :
    removeIpConn ip sid (removeIpConn ip sid l) = removeIpConn ip sid l := by
  rcases h : lookupA ip l with _ | conns
  · simp [removeIpConn, h]
  · by_cases hz : conns.erase sid = ∅
    · simp [removeIpConn, h, hz, lookupA_eraseA_self]
    · have hl2 : lookupA ip (setA ip (conns.erase sid) l) = some (conns.erase sid) :=
        lookupA_setA_self _ _ _
      simp only [removeIpConn, h, if_neg hz, hl2, Finset.erase_idem]
      exact setA_eq_of_lookup hl2

theorem discRooms_mem_clean {sid : ℕ} {chOf : ℕ → Finset ℕ} {l : List (ℕ × RoomMeta)} :
    ∀ p ∈ (discRooms sid chOf l).1,
      (p : ℕ × RoomMeta).2.hostSocketId ≠ sid ∧ sid ∉ p.2.peers := by
  induction l with
  | nil => simp [discRooms]
  | cons q t ih =>
    obtain ⟨k₀, v₀⟩ := q
    intro p hp
    by_cases h1 : v₀.hostSocketId = sid
    · exact ih p (by simpa [discRooms, h1] using hp)
    · by_cases h2 : sid ∈ v₀.peers
      · simp only [discRooms, if_neg h1, if_pos h2, List.mem_cons] at hp
        rcases hp with rfl | hp
        · exact ⟨h1, Finset.not_mem_erase _ _⟩
        · exact ih p hp
      · simp only [discRooms, if_neg h1, if_neg h2, List.mem_cons] at hp
        rcases hp with rfl | hp
        · exact ⟨h1, h2⟩
        · exact ih p hp

theorem disconnect_idem (s : ServerState) (ip sid : ℕ) :
    disconnect (disconnect s ip sid).1 ip sid = ((disconnect s ip sid).1, []) := by
  set d1 := (disconnect s ip sid).1 with hd1
  have hclean : ∀ p ∈ d1.rooms, (p : ℕ × RoomMeta).2.hostSocketId ≠ sid ∧ sid ∉ p.2.peers := by
    rw [hd1, disconnect_state_rooms]
    exact discRooms_mem_clean
  have hdisc := @discRooms_untouched sid
    (fun c => (lookupA c (d1.channels.map (fun p => (p.1, p.2.erase sid)))).getD ∅)
    d1.rooms hclean
  have h1 : (disconnect d1 ip sid).1 = d1 := by
    refine serverState_eq_of_fields ?_ ?_ ?_ ?_ ?_
    · rw [disconnect_state_rooms, hdisc]
    · rw [disconnect_state_channels, hd1, disconnect_state_channels, map_erase_idem]
    · rw [disconnect_state_ipConns, hd1, disconnect_state_ipConns, removeIpConn_idem]
    · rw [disconnect_state_buckets, hd1, disconnect_state_buckets,
        eraseA_eq_of_lookup_none (lookupA_eraseA_self sid s.rateBuckets)]
    · rw [disconnect_state_connected, hd1, disconnect_state_connected, Finset.erase_idem]
  have h2 : (disconnect d1 ip sid).2 = [] := by
    rw [disconnect_events, hdisc]
  calc disconnect d1 ip sid = ((disconnect d1 ip sid).1, (disconnect d1 ip sid).2) := rfl
    _ = (d1, []) := by rw [h1, h2]

/-!  Claim theorems. -/

/-- Claim C1: across every operation sequence from the initial state,
every room's peer-set size stays within its `maxPeers` (as a natural
number it is also never negative); and a join-room on a full room
(every reachable room has `maxPeers ≥ 1`, hypothesis `1 ≤ maxPeers`)
never succeeds and leaves the room, in particular its peer set,
unchanged — with the error reported as `max_peers_reached` when the
request carries the room's correct token and passes the rate limiter,
the checks that precede the capacity check in the handler. -/
theorem room_peer_cap_invariant :
    (∀ (cfg : Config) (ops : List Op) (code : ℕ) (meta : RoomMeta),
        lookupA code (run cfg initState ops).rooms = some meta →
        meta.peers.card ≤ meta.maxPeers ∧ 0 ≤ meta.peers.card) ∧
    (∀ (cfg : Config) (s : ServerState) (sid tok now code : ℕ) (meta : RoomMeta),
        lookupA code s.rooms = some meta → 1 ≤ meta.maxPeers →
        meta.maxPeers ≤ meta.peers.card →
        (joinRoom cfg s sid (some code) (some tok) now).1 ≠ .ok ∧
        lookupA code (joinRoom cfg s sid (some code) (some tok) now).2.1.rooms =
          some meta) ∧
    (∀ (cfg : Config) (s : ServerState) (sid now code : ℕ) (meta : RoomMeta),
        lookupA code s.rooms = some meta → 1 ≤ meta.maxPeers →
        meta.maxPeers ≤ meta.peers.card → rateOK cfg s sid now →
        (joinRoom cfg s sid (some code) (some meta.token) now).1 =
          .err .max_peers_reached) := by
  refine ⟨?_, ?_, ?_⟩
  · intro cfg ops code meta h
    exact ⟨((invU_run cfg ops initState invU_init).2 code meta h).2.1, Nat.zero_le _⟩
  · intro cfg s sid tok now code meta hl hmax hfull
    rcases hct : consumeToken cfg s sid now with ⟨b, s'⟩
    have hr : s'.rooms = s.rooms := by
      have := consumeToken_rooms cfg s sid now; rwa [hct] at this
    have hl' : lookupA code s'.rooms = some meta := by rw [hr]; exact hl
    cases b with
    | false =>
      exact ⟨by simp [joinRoom, hct], by simp [joinRoom, hct, hl']⟩
    | true =>
      by_cases htok : meta.token ≠ tok
      · exact ⟨by simp [joinRoom, hct, hl', htok], by simp [joinRoom, hct, hl', htok]⟩
      · have hcap : meta.maxPeers ≠ 0 ∧ meta.maxPeers ≤ meta.peers.card :=
          ⟨by omega, hfull⟩
        exact ⟨by simp [joinRoom, hct, hl', htok, hcap],
               by simp [joinRoom, hct, hl', htok, hcap]⟩
  · intro cfg s sid now code meta hl hmax hfull hrate
    rcases hct : consumeToken cfg s sid now with ⟨b, s'⟩
    have hb : b = true := by
      have := (consumeToken_true_iff cfg s sid now).mpr hrate
      rwa [hct] at this
    subst hb
    have hr : s'.rooms = s.rooms := by
      have := consumeToken_rooms cfg s sid now; rwa [hct] at this
    have hl' : lookupA code s'.rooms = some meta := by rw [hr]; exact hl
    have hcap : meta.maxPeers ≠ 0 ∧ meta.maxPeers ≤ meta.peers.card := ⟨by omega, hfull⟩
    simp [joinRoom, hct, hl', hcap]

/-- Witness for C1 at the concrete full room (host 0, peer 2,
`maxPeers = 1`): the invariant bound, a failed wrong-token join, and
`max_peers_reached` for a correct-token join by socket 4. -/
theorem room_peer_cap_invariant_witness :
    (exMetaFull.peers.card ≤ exMetaFull.maxPeers ∧ 0 ≤ exMetaFull.peers.card) ∧
    ((joinRoom exCfg exStateFull 4 (some 1) (some 9) 0).1 ≠ .ok ∧
      lookupA 1 (joinRoom exCfg exStateFull 4 (some 1) (some 9) 0).2.1.rooms =
        some exMetaFull) ∧
    (joinRoom exCfg exStateFull 4 (some 1) (some exMetaFull.token) 0).1 =
      .err .max_peers_reached :=
  ⟨room_peer_cap_invariant.1 exCfg exTraceFull 1 exMetaFull (by decide),
   room_peer_cap_invariant.2.1 exCfg exStateFull 4 9 0 1 exMetaFull (by decide) (by decide)
     (by decide),
   room_peer_cap_invariant.2.2 exCfg exStateFull 4 0 1 exMetaFull (by decide) (by decide)
     (by decide) (by decide)⟩

/-- Claim C2 counterexample: in a state holding the room with token 5
whose would-be joiner (socket 2) has an exhausted rate bucket, a
join-room carrying the room's code and the wrong token 6 fails with
`rate_limit`, not `invalid_token` — the handler checks the rate
limiter before the token. -/
theorem wrong_token_rate_limited_counterexample :
    lookupA 1 exStateDrained.rooms = some exRoomMeta ∧
    exRoomMeta.token = 5 ∧ (6 : ℕ) ≠ 5 ∧
    (joinRoom exCfg exStateDrained 2 (some 1) (some 6) 0).1 = .err .rate_limit ∧
    (joinRoom exCfg exStateDrained 2 (some 1) (some 6) 0).1 ≠ .err .invalid_token := by
  decide

/-- Claim C2 (amended): for every room and every join-room request
carrying that room's code but a token different from the room's stored
token, issued by a requester whose rate bucket grants a token, the
join fails with `invalid_token` and the room registry — hence the
room's host, peer set and counters — and the channels are unchanged
and nothing is delivered, regardless of the room's current peer count
or remaining usage. -/
theorem wrong_token_join_rejected (cfg : Config) (s : ServerState)
    (sid code tok now : ℕ) (meta : RoomMeta)
    (hl : lookupA code s.rooms = some meta) (htok : tok ≠ meta.token)
    (hrate : rateOK cfg s sid now) :
    (joinRoom cfg s sid (some code) (some tok) now).1 = .err .invalid_token ∧
    (joinRoom cfg s sid (some code) (some tok) now).2.1.rooms = s.rooms ∧
    (joinRoom cfg s sid (some code) (some tok) now).2.1.channels = s.channels ∧
    (joinRoom cfg s sid (some code) (some tok) now).2.2 = [] := by
  rcases hct : consumeToken cfg s sid now with ⟨b, s'⟩
  have hb : b = true := by
    have := (consumeToken_true_iff cfg s sid now).mpr hrate
    rwa [hct] at this
  subst hb
  have hr : s'.rooms = s.rooms := by
    have := consumeToken_rooms cfg s sid now; rwa [hct] at this
  have hch : s'.channels = s.channels := by
    have := consumeToken_channels cfg s sid now; rwa [hct] at this
  have hl' : lookupA code s'.rooms = some meta := by rw [hr]; exact hl
  have htok' : meta.token ≠ tok := fun e => htok e.symm
  refine ⟨by simp [joinRoom, hct, hl', htok'], ?_, ?_, by simp [joinRoom, hct, hl', htok']⟩
  · simp [joinRoom, hct, hl, hl', htok', hr]
  · simp [joinRoom, hct, hl, hl', htok', hch]

/-- Witness for the amended C2: socket 4 (fresh bucket) joins the full
room with wrong token 9 and is rejected with `invalid_token`, leaving
the registries untouched. -/
theorem wrong_token_join_rejected_witness :
    (joinRoom exCfg exStateFull 4 (some 1) (some 9) 0).1 = .err .invalid_token ∧
    (joinRoom exCfg exStateFull 4 (some 1) (some 9) 0).2.1.rooms = exStateFull.rooms ∧
    (joinRoom exCfg exStateFull 4 (some 1) (some 9) 0).2.1.channels =
      exStateFull.channels ∧
    (joinRoom exCfg exStateFull 4 (some 1) (some 9) 0).2.2 = [] :=
  wrong_token_join_rejected exCfg exStateFull 4 1 9 0 exMetaFull (by decide) (by decide)
    (by decide)

/-- After `k < N` transfer-complete events, a room that started with
`usageLeft = N` is still registered with `usageLeft = N - k`. -/
theorem tcRun_usage {s : ServerState} {code : ℕ} {meta : RoomMeta} {N : ℕ}
    (sid : ℕ) (hl : lookupA code s.rooms = some meta) (hu : meta.usageLeft = some N) :
    ∀ k, k < N → lookupA code (tcRun sid code k s).rooms =
      some { meta with usageLeft := some (N - k) } := by
  intro k
  induction k with
  | zero =>
    intro _
    have hm : { meta with usageLeft := some (N - 0) } = meta := by
      rw [Nat.sub_zero, ← hu]
    rw [tcRun, hm]
    exact hl
  | succ k ih =>
    intro h
    have hk := ih (by omega)
    have hz : ¬(N - k - 1 = 0) := by omega
    have step : (transferComplete (tcRun sid code k s) sid code).1.rooms =
        setA code { meta with usageLeft := some (N - k - 1) }
          (tcRun sid code k s).rooms := by
      simp [transferComplete, hk, hz]
    rw [tcRun, step, lookupA_setA_self]
    have : N - k - 1 = N - (k + 1) := by omega
    rw [this]

/-- Claim C3: a room whose `usageLeft` is `N > 0` survives the first
`N - 1` transfer-complete events for its code (its counter reading
`N - k` after the `k`-th), is removed from the registry by the `N`-th
event with a `room-expired` broadcast of reason `usage_exhausted` on
its channel, and a subsequent join-room carrying its code (and any
token) from a requester whose rate bucket grants a token fails with
`room_not_found`. -/
theorem usage_limit_exhaustion_destroys_room (s : ServerState) (sid code N : ℕ)
    (meta : RoomMeta) (hl : lookupA code s.rooms = some meta)
    (hu : meta.usageLeft = some N) (hN : 0 < N) :
    (∀ k, k < N → lookupA code (tcRun sid code k s).rooms =
        some { meta with usageLeft := some (N - k) }) ∧
    lookupA code (tcRun sid code N s).rooms = none ∧
    Event.roomExpired (channelOf (tcRun sid code (N - 1) s) code) code .usage_exhausted ∈
      (transferComplete (tcRun sid code (N - 1) s) sid code).2 ∧
    ∀ (cfg : Config) (sid' tok now : ℕ), rateOK cfg (tcRun sid code N s) sid' now →
      (joinRoom cfg (tcRun sid code N s) sid' (some code) (some tok) now).1 =
        .err .room_not_found := by
  obtain ⟨M, rfl⟩ : ∃ M, N = M + 1 := ⟨N - 1, by omega⟩
  have hmain := tcRun_usage sid hl hu
  have hM : lookupA code (tcRun sid code M s).rooms =
      some { meta with usageLeft := some 1 } := by
    have := hmain M (by omega)
    rwa [show M + 1 - M = 1 by omega] at this
  have hstep1 : lookupA code (tcRun sid code (M + 1) s).rooms = none := by
    rw [tcRun]
    simp [transferComplete, hM, lookupA_eraseA_self]
  have hev : Event.roomExpired (channelOf (tcRun sid code M s) code) code
      .usage_exhausted ∈ (transferComplete (tcRun sid code M s) sid code).2 := by
    simp [transferComplete, hM]
  refine ⟨hmain, hstep1, ?_, ?_⟩
  · rw [show M + 1 - 1 = M from by omega]
    exact hev
  · intro cfg sid' tok now hrate
    rcases hct : consumeToken cfg (tcRun sid code (M + 1) s) sid' now with ⟨b, s'⟩
    have hb : b = true := by
      have := (consumeToken_true_iff cfg (tcRun sid code (M + 1) s) sid' now).mpr hrate
      rwa [hct] at this
    subst hb
    have hr : s'.rooms = (tcRun sid code (M + 1) s).rooms := by
      have := consumeToken_rooms cfg (tcRun sid code (M + 1) s) sid' now
      rwa [hct] at this
    have hnone : lookupA code s'.rooms = none := by rw [hr]; exact hstep1
    simp [joinRoom, hct, hnone]

/-- Witness for C3 at the usage-limited room (`usageLeft = 2`): the
counter reads 1 after one event, the room is gone after two with the
broadcast delivered, and socket 4's subsequent join gets
`room_not_found`. -/
theorem usage_limit_exhaustion_destroys_room_witness :
    lookupA 1 (tcRun 7 1 1 exStateUsage).rooms =
      some { exMetaUsage with usageLeft := some 1 } ∧
    lookupA 1 (tcRun 7 1 2 exStateUsage).rooms = none ∧
    Event.roomExpired (channelOf (tcRun 7 1 1 exStateUsage) 1) 1 .usage_exhausted ∈
      (transferComplete (tcRun 7 1 1 exStateUsage) 7 1).2 ∧
    (joinRoom exCfg (tcRun 7 1 2 exStateUsage) 4 (some 1) (some 5) 0).1 =
      .err .room_not_found := by
  have h := usage_limit_exhaustion_destroys_room exStateUsage 7 1 2 exMetaUsage
    (by decide) (by decide) (by decide)
  exact ⟨h.1 1 (by decide), h.2.1, h.2.2.1, h.2.2.2 exCfg 4 5 0 (by decide)⟩

/-- Claim C10: `transfer-complete` consults only the room code, never
the sender: its outcome is literally independent of the sender's id,
and a sender that is neither the host nor a peer of a usage-tracked
room decrements the counter exactly as a member would — reaching the
room's destruction (with the `usage_exhausted` broadcast) at
`usageLeft = 1`. -/
theorem transfer_complete_unauthenticated :
    (∀ (s : ServerState) (code sidA sidB : ℕ),
        transferComplete s sidA code = transferComplete s sidB code) ∧
    (∀ (s : ServerState) (code sid u : ℕ) (meta : RoomMeta),
        lookupA code s.rooms = some meta →
        sid ≠ meta.hostSocketId → sid ∉ meta.peers →
        meta.usageLeft = some u → 0 < u →
        (1 < u → lookupA code (transferComplete s sid code).1.rooms =
            some { meta with usageLeft := some (u - 1) }) ∧
        (u = 1 → lookupA code (transferComplete s sid code).1.rooms = none ∧
            (transferComplete s sid code).2 =
              [Event.roomExpired (channelOf s code) code .usage_exhausted])) := by
  constructor
  · intro s code a b
    rfl
  · intro s code sid u meta hl hhost hpeer hu hpos
    constructor
    · intro h1
      have hz : ¬(u - 1 = 0) := by omega
      simp [transferComplete, hl, hu, hz, lookupA_setA_self]
    · intro h1
      subst h1
      simp [transferComplete, hl, hu, lookupA_eraseA_self]

/-- Witness for C10: socket 7 — connected to nothing, member of
nothing, never shown the token — sends `transfer-complete` for room 1:
identical outcome to any other sender, the counter drops 2 → 1, and a
second event destroys the room with the broadcast. -/
theorem transfer_complete_unauthenticated_witness :
    transferComplete exStateUsage 7 1 = transferComplete exStateUsage 8 1 ∧
    ((7 : ℕ) ≠ exMetaUsage.hostSocketId ∧ (7 : ℕ) ∉ exMetaUsage.peers) ∧
    lookupA 1 (transferComplete exStateUsage 7 1).1.rooms =
      some { exMetaUsage with usageLeft := some 1 } ∧
    lookupA 1 (transferComplete exStateUsageOne 7 1).1.rooms = none ∧
    (transferComplete exStateUsageOne 7 1).2 =
      [Event.roomExpired (channelOf exStateUsageOne 1) 1 .usage_exhausted] := by
  have h := transfer_complete_unauthenticated
  have h2 := h.2 exStateUsage 1 7 2 exMetaUsage (by decide) (by decide) (by decide)
    (by decide) (by decide)
  have h3 := h.2 exStateUsageOne 1 7 1 { exMetaUsage with usageLeft := some 1 }
    (by decide) (by decide) (by decide) (by decide) (by decide)
  exact ⟨h.1 exStateUsage 1 7 8, ⟨by decide, by decide⟩, h2.1 (by decide),
    (h3.2 rfl).1, (h3.2 rfl).2⟩

/-- Claim C4: on a good trace, when a room's host disconnects, the
`host-left` broadcast is delivered exactly to the room's current peer
set (socket.io has already removed the disconnecting host from the
channel, which the invariant shows holds the host and the peers) and
the room is removed from the registry; and a second disconnect for the
same connection id right after is a no-op — the state is unchanged and
nothing is emitted (this half holds for every state whatsoever). -/
theorem host_disconnect_notifies_peers_and_idempotent :
    (∀ (cfg : Config) (ops : List Op) (ip code : ℕ) (meta : RoomMeta),
        goodRun cfg initState ops = true →
        lookupA code (run cfg initState ops).rooms = some meta →
        Event.hostLeft meta.peers code ∈
          (disconnect (run cfg initState ops) ip meta.hostSocketId).2 ∧
        lookupA code
          (disconnect (run cfg initState ops) ip meta.hostSocketId).1.rooms = none) ∧
    (∀ (s : ServerState) (ip sid : ℕ),
        disconnect (disconnect s ip sid).1 ip sid = ((disconnect s ip sid).1, [])) := by
  constructor
  · intro cfg ops ip code meta hg hl
    have hG : InvG (run cfg initState ops) := invG_run cfg ops initState hg invG_init
    obtain ⟨hnp, hch, -⟩ := hG.2 code meta hl
    have hchan :
        (lookupA code ((run cfg initState ops).channels.map
          (fun p => (p.1, p.2.erase meta.hostSocketId)))).getD ∅ = meta.peers := by
      rw [channelOf_map_erase, hch, Finset.erase_insert hnp]
    constructor
    · rw [disconnect_events]
      have hmem := @discRooms_hostLeft_mem meta.hostSocketId
        (fun c => (lookupA c ((run cfg initState ops).channels.map
          (fun p => (p.1, p.2.erase meta.hostSocketId)))).getD ∅)
        (run cfg initState ops).rooms code meta hl rfl
      simpa [hchan] using hmem
    · rw [disconnect_state_rooms]
      exact discRooms_lookup_host hG.1.1 hl rfl
  · intro s ip sid
    exact disconnect_idem s ip sid

/-- Witness for C4 on the concrete full room: disconnecting host 0
delivers `host-left` to peer set `{2}`, removes room 1, and a second
disconnect of socket 0 is a silent no-op. -/
theorem host_disconnect_notifies_peers_and_idempotent_witness :
    goodRun exCfg initState exTraceFull = true ∧
    (Event.hostLeft exMetaFull.peers 1 ∈ (disconnect exStateFull 9 0).2 ∧
      lookupA 1 (disconnect exStateFull 9 0).1.rooms = none) ∧
    disconnect (disconnect exStateFull 9 0).1 9 0 = ((disconnect exStateFull 9 0).1, []) :=
  ⟨by decide,
   host_disconnect_notifies_peers_and_idempotent.1 exCfg exTraceFull 9 1 exMetaFull
     (by decide) (by decide),
   host_disconnect_notifies_peers_and_idempotent.2 exStateFull 9 0⟩

/-- Claim C5 counterexample: the join handler never checks whether the
requester is the room's own host, so after `[connect, create-room,
join-room by the host itself with its own code and token]` — here from
the state reached right after the create — the registry holds a room
whose host id 0 is a member of its own peer set, refuting "the host's
connection id is never a member of that room's peer set". -/
theorem host_self_join_breaks_invariant :
    lookupA 1 (joinRoom exCfg exStatePostCreate 0 (some 1) (some 5) 0).2.1.rooms =
      some { exRoomMeta with peers := {0} } ∧
    (joinRoom exCfg exStatePostCreate 0 (some 1) (some 5) 0).1 = .ok ∧
    ({ exRoomMeta with peers := {0} } : RoomMeta).hostSocketId ∈
      ({ exRoomMeta with peers := {0} } : RoomMeta).peers := by
  decide

/-- Claim C5 (amended): on traces in which no host issues `join-room`
for its own room (and room codes are fresh and joiners connected — the
`goodRun` side conditions), every registered room has exactly one host,
the host's id is not a member of the room's peer set, and the peers
are a subset of the connected sockets minus the host. -/
theorem room_host_membership_invariant (cfg : Config) (ops : List Op)
    (hg : goodRun cfg initState ops = true) (code : ℕ) (meta : RoomMeta)
    (hl : lookupA code (run cfg initState ops).rooms = some meta) :
    (∃! h : ℕ, h = meta.hostSocketId) ∧
    meta.hostSocketId ∉ meta.peers ∧
    meta.peers ⊆ (run cfg initState ops).connected.erase meta.hostSocketId := by
  have hG : InvG (run cfg initState ops) := invG_run cfg ops initState hg invG_init
  obtain ⟨h1, -, h3⟩ := hG.2 code meta hl
  refine ⟨⟨meta.hostSocketId, rfl, fun y hy => hy⟩, h1, ?_⟩
  intro x hx
  exact Finset.mem_erase.mpr ⟨fun he => h1 (he ▸ hx), h3 hx⟩

/-- Witness for the amended C5 on the concrete full room: host 0 is
unique, not among the peers `{2}`, and the peers are connected
non-host sockets. -/
theorem room_host_membership_invariant_witness :
    goodRun exCfg initState exTraceFull = true ∧
    ((∃! h : ℕ, h = exMetaFull.hostSocketId) ∧
      exMetaFull.hostSocketId ∉ exMetaFull.peers ∧
      exMetaFull.peers ⊆ exStateFull.connected.erase exMetaFull.hostSocketId) :=
  ⟨by decide,
   room_host_membership_invariant exCfg exTraceFull (by decide) 1 exMetaFull (by decide)⟩

/-- Claim C6 evaluated at its failing input (host 0, peer 2, peer 2
sends `leave-room`): the peer is removed from the peer set and
unsubscribed from the channel, but the handler emits nothing — in
particular the host receives no `peer-left` (the handler's peer branch
has no emit; only the disconnect path notifies the host). -/
theorem peer_leave_emits_no_peer_left :
    lookupA 1 exStateFull.rooms = some exMetaFull ∧
    (2 : ℕ) ∈ exMetaFull.peers ∧ exMetaFull.hostSocketId = 0 ∧
    (leaveRoom exStateFull 2 1).2 = [] ∧
    lookupA 1 (leaveRoom exStateFull 2 1).1.rooms = some exRoomMeta ∧
    channelOf (leaveRoom exStateFull 2 1).1 1 = {0} := by
  decide

/-- Claim C7 evaluated at its failing input (per-IP cap 1, IP 9
already holding socket 0, socket 1 connects): the connection is
rejected and terminated, but the just-added entry is never released —
the handler returns before registering the `disconnect` listener that
calls `removeIpConnection`, so socket 1 stays in IP 9's set and the
entry dangles. -/
theorem over_cap_connection_entry_leaks :
    ipConnsOf exStateOneConn 9 = {0} ∧
    (connect exCfgCap1 exStateOneConn 9 1).1 = false ∧
    (connect exCfgCap1 exStateOneConn 9 1).2.2 = [Event.ipLimit 1] ∧
    (1 : ℕ) ∈ ipConnsOf (connect exCfgCap1 exStateOneConn 9 1).2.1 9 ∧
    (1 : ℕ) ∉ (connect exCfgCap1 exStateOneConn 9 1).2.1.connected ∧
    ipConnsOf (connect exCfgCap1 exStateOneConn 9 1).2.1 9 = {0, 1} := by
  decide

/-- Claim C8: when the refilled bucket is below one token, the very
next rate-limited action (here `create-room`) is rejected with
`rate_limit`: `consumeToken` answers `false` synchronously and nothing
but the requester's own bucket changes (rooms, channels, IP sets and
every other socket's bucket are untouched).  And once enough time has
passed for one whole token to accrue at the configured per-second rate
(`1000 ≤ elapsed_ms * msgsPerSecond`, i.e. `elapsed_ms/1000 *
msgsPerSecond ≥ 1`, the refill being capped at the bucket capacity
`msgsPerSecond ≥ 1`), the same connection's next action succeeds. -/
theorem rate_bucket_exhaustion_and_refill :
    (∀ (cfg : Config) (s : ServerState) (sid now code tok : ℕ) (opts : CreateOpts),
        ¬ rateOK cfg s sid now →
        (consumeToken cfg s sid now).1 = false ∧
        (createRoom cfg s sid code tok opts now).1 = .err .rate_limit ∧
        (createRoom cfg s sid code tok opts now).2.1.rooms = s.rooms ∧
        (createRoom cfg s sid code tok opts now).2.1.channels = s.channels ∧
        (createRoom cfg s sid code tok opts now).2.1.ipConns = s.ipConns ∧
        ∀ sid', sid' ≠ sid →
          lookupA sid' (createRoom cfg s sid code tok opts now).2.1.rateBuckets =
            lookupA sid' s.rateBuckets) ∧
    (∀ (cfg : Config) (s : ServerState) (sid now : ℕ) (b : Bucket),
        lookupA sid s.rateBuckets = some b → 0 ≤ b.tokens →
        1 ≤ cfg.msgsPerSecond →
        1000 ≤ (now - b.lastRefill) * cfg.msgsPerSecond →
        (consumeToken cfg s sid now).1 = true ∧
        ∀ (code tok : ℕ) (opts : CreateOpts),
          (createRoom cfg s sid code tok opts now).1 = .ok) := by
  constructor
  · intro cfg s sid now code tok opts hno
    have hfalse : (consumeToken cfg s sid now).1 = false := by
      rcases hb : (consumeToken cfg s sid now).1 with _ | _
      · rfl
      · exact absurd ((consumeToken_true_iff cfg s sid now).mp hb) hno
    rcases hct : consumeToken cfg s sid now with ⟨b, s'⟩
    rw [hct] at hfalse
    subst hfalse
    refine ⟨rfl, ?_, ?_, ?_, ?_, ?_⟩
    · simp [createRoom, hct]
    · have := consumeToken_rooms cfg s sid now
      rw [hct] at this
      simpa [createRoom, hct] using this
    · have := consumeToken_channels cfg s sid now
      rw [hct] at this
      simpa [createRoom, hct] using this
    · have := consumeToken_ipConns cfg s sid now
      rw [hct] at this
      simpa [createRoom, hct] using this
    · intro sid' hne
      have := @consumeToken_buckets_ne cfg s sid now sid' hne
      rw [hct] at this
      simpa [createRoom, hct] using this
  · intro cfg s sid now b hlk hb0 hrat hamt
    have hΔ : now - b.lastRefill ≠ 0 := by
      intro h
      rw [h, Nat.zero_mul] at hamt
      omega
    have hlt : b.lastRefill < now := by omega
    have hratQ : (1 : ℚ) ≤ (cfg.msgsPerSecond : ℚ) := by exact_mod_cast hrat
    have hamtQ : (1 : ℚ) ≤
        (((now - b.lastRefill : ℕ) : ℚ) / 1000) * (cfg.msgsPerSecond : ℚ) := by
      have h1000 : (1000 : ℚ) ≤ ((now - b.lastRefill : ℕ) : ℚ) * (cfg.msgsPerSecond : ℚ) := by
        exact_mod_cast hamt
      rw [div_mul_eq_mul_div, le_div_iff₀ (by norm_num : (0:ℚ) < 1000)]
      linarith
    have hens : ensureBucket cfg s sid now = b := by
      simp [ensureBucket, hlk]
    have hOK : rateOK cfg s sid now := by
      unfold rateOK
      rw [hens]
      unfold refillBucket
      rw [if_pos hlt]
      exact le_min hratQ (by linarith)
    have htrue : (consumeToken cfg s sid now).1 = true :=
      (consumeToken_true_iff cfg s sid now).mpr hOK
    refine ⟨htrue, ?_⟩
    intro code tok opts
    rcases hct : consumeToken cfg s sid now with ⟨bb, s'⟩
    rw [hct] at htrue
    subst htrue
    simp [createRoom, hct]

/-- Witness for C8: socket 3's bucket is empty at time 0, so a
create-room is rejected with `rate_limit` and nothing else changes;
100 ms later (100 · 10 ≥ 1000) one whole token has accrued and the
same socket's create-room succeeds. -/
theorem rate_bucket_exhaustion_and_refill_witness :
    ((consumeToken exCfg exStateBucket 3 0).1 = false ∧
      (createRoom exCfg exStateBucket 3 1 5 exOptsDefault 0).1 = .err .rate_limit ∧
      (createRoom exCfg exStateBucket 3 1 5 exOptsDefault 0).2.1.rooms =
        exStateBucket.rooms ∧
      lookupA 2 (createRoom exCfg exStateBucket 3 1 5 exOptsDefault 0).2.1.rateBuckets =
        lookupA 2 exStateBucket.rateBuckets) ∧
    ((consumeToken exCfg exStateBucket 3 100).1 = true ∧
      (createRoom exCfg exStateBucket 3 1 5 exOptsDefault 100).1 = .ok) := by
  have ha := rate_bucket_exhaustion_and_refill.1 exCfg exStateBucket 3 0 1 5 exOptsDefault
    (by decide)
  have hb := rate_bucket_exhaustion_and_refill.2 exCfg exStateBucket 3 100 ⟨0, 0⟩
    (by decide) (by decide) (by decide) (by decide)
  exact ⟨⟨ha.1, ha.2.1, ha.2.2.1, ha.2.2.2.2.2 2 (by decide)⟩,
    ⟨hb.1, hb.2 1 5 exOptsDefault⟩⟩

/-- Claim C9: on a good trace, a sweep at time `now` removes every
room with `createdAt + ttlMs ≤ now` from the registry and broadcasts
`room-expired` with reason `ttl` to the room's members ({host} ∪
peers, the channel contents by the invariant), while a room whose TTL
has not elapsed is left registered with unchanged state and receives
no `room-expired` at all. -/
theorem ttl_sweep_expires_rooms (cfg : Config) (ops : List Op) (now code : ℕ)
    (meta : RoomMeta) (hg : goodRun cfg initState ops = true)
    (hl : lookupA code (run cfg initState ops).rooms = some meta) :
    (meta.createdAt + meta.ttlMs ≤ now →
      lookupA code (sweep (run cfg initState ops) now).1.rooms = none ∧
      Event.roomExpired (insert meta.hostSocketId meta.peers) code .ttl ∈
        (sweep (run cfg initState ops) now).2) ∧
    (now < meta.createdAt + meta.ttlMs →
      lookupA code (sweep (run cfg initState ops) now).1.rooms = some meta ∧
      ∀ (r : Finset ℕ) (rs : ExpReason),
        Event.roomExpired r code rs ∉ (sweep (run cfg initState ops) now).2) := by
  have hG : InvG (run cfg initState ops) := invG_run cfg ops initState hg invG_init
  have httl : meta.ttlMs ≠ 0 := by
    have := (hG.1.2 code meta hl).2.2
    omega
  have hch : channelOf (run cfg initState ops) code =
      insert meta.hostSocketId meta.peers := (hG.2 code meta hl).2.1
  constructor
  · intro hexp
    have hcond : meta.ttlMs ≠ 0 ∧ meta.createdAt + meta.ttlMs ≤ now := ⟨httl, hexp⟩
    constructor
    · show lookupA code (sweepRooms now _ (run cfg initState ops).rooms).1 = none
      exact sweepRooms_lookup_expired hG.1.1 hl hcond
    · show Event.roomExpired _ code .ttl ∈
        (sweepRooms now (fun c => channelOf (run cfg initState ops) c)
          (run cfg initState ops).rooms).2
      have hmem := @sweepRooms_event_mem now
        (fun c => channelOf (run cfg initState ops) c)
        (run cfg initState ops).rooms code meta hl hcond
      simpa [hch] using hmem
  · intro halive
    have hcond : ¬(meta.ttlMs ≠ 0 ∧ meta.createdAt + meta.ttlMs ≤ now) :=
      fun h => absurd h.2 (by omega)
    exact ⟨sweepRooms_lookup_alive hl hcond,
      fun r rs => sweepRooms_no_event_alive hG.1.1 hl hcond r rs⟩

/-- Witness for C9 on the concrete full room (`ttlMs = 3600000`,
created at 0): a sweep at time 3600000 removes it and broadcasts
`room-expired`/`ttl` to `{0, 2}`; a sweep at time 5 leaves it
registered and delivers nothing for its code. -/
theorem ttl_sweep_expires_rooms_witness :
    goodRun exCfg initState exTraceFull = true ∧
    (lookupA 1 (sweep exStateFull 3600000).1.rooms = none ∧
      Event.roomExpired (insert exMetaFull.hostSocketId exMetaFull.peers) 1 .ttl ∈
        (sweep exStateFull 3600000).2) ∧
    (lookupA 1 (sweep exStateFull 5).1.rooms = some exMetaFull ∧
      Event.roomExpired {0, 2} 1 .ttl ∉ (sweep exStateFull 5).2) :=
  ⟨by decide,
   (ttl_sweep_expires_rooms exCfg exTraceFull 3600000 1 exMetaFull (by decide)
      (by decide)).1 (by decide),
   ((ttl_sweep_expires_rooms exCfg exTraceFull 5 1 exMetaFull (by decide)
      (by decide)).2 (by decide)).1,
   ((ttl_sweep_expires_rooms exCfg exTraceFull 5 1 exMetaFull (by decide)
      (by decide)).2 (by decide)).2 {0, 2} .ttl⟩

end P2PSignaling
